import Mathlib

/-!
# Verification of the scrape-it extraction core

Shallow embedding of `src/lib/index.js` (the functions `scrapeIt.scrapeHTML`,
`handleDataObj` and `normalizeOpt`) over a model of the cheerio DOM/query
collaborator.  The engine is the JavaScript recursion translated into Lean:

* the DOM is a tree of element/text nodes; node handles are paths from the
  document root; the external selector engine is modelled as tag-name matching
  with queries returning descendants in document order;
* JavaScript exceptions are an `Except` result (`configError` for the `Err`
  object thrown with code `NO_ELEMENT_SELECTED`, `typeError` for the implicit
  TypeErrors raised by property access on `undefined` or on raw DOM nodes);
* the in-place mutation that `normalizeOpt` and `handleDataObj` perform on the
  caller's schema is made explicit by threading the schema state: the engine
  returns the updated schema next to the result;
* the recursion of `handleDataObj` is not structural (the `___raw` synthetic
  sub-schema it builds for empty list sub-schemas is not a sub-term), so the
  definition is fueled; the public entry point supplies sufficient fuel
  computed from the schema.
-/

namespace ScrapeIt

/-! ## The DOM model (cheerio collaborator) -/

mutual
/-- A node of the parsed markup tree: an element with a tag, attributes and
children, or a text node carrying raw character data. -/
inductive DNode where
  | elem (tag : String) (attrs : List (String × String)) (children : DNodeList)
  | text (tdata : String)
/-- Children lists, as a mutual inductive so that all recursion over the tree
is structural. -/
inductive DNodeList where
  | nil
  | cons (head : DNode) (tail : DNodeList)
end

/-- Build a `DNodeList` from a Lean list. -/
def dlist : List DNode → DNodeList
  | [] => .nil
  | d :: ds => .cons d (dlist ds)

@[simp] def DNodeList.length : DNodeList → Nat
  | .nil => 0
  | .cons _ t => t.length + 1

@[simp] def DNodeList.get? : DNodeList → Nat → Option DNode
  | .nil, _ => none
  | .cons h _, 0 => some h
  | .cons _ t, n + 1 => t.get? n

/-- A node handle: the path of child indices leading to the node from the
document root. -/
abbrev Path := List Nat

@[simp] def childrenOf : DNode → DNodeList
  | .elem _ _ cs => cs
  | .text _ => .nil

/-- Dereference a path in the document. -/
@[simp] def nodeAt (d : DNode) : Path → Option DNode
  | [] => some d
  | i :: p =>
    match (childrenOf d).get? i with
    | some c => nodeAt c p
    | none => none

mutual
/-- All paths of the subtree rooted at the given node (which sits at path `p`),
in document (pre-)order, the node itself first. -/
def subPaths : DNode → Path → List Path
  | .elem _ _ cs, p => p :: subPathsList cs p 0
  | .text _, p => [p]
def subPathsList : DNodeList → Path → Nat → List Path
  | .nil, _, _ => []
  | .cons c rest, p, i => subPaths c (p ++ [i]) ++ subPathsList rest p (i + 1)
end

/-- Every path of the document, in document order (root first). -/
def allPaths (doc : DNode) : List Path := subPaths doc []

mutual
/-- Text content of a node: concatenation of all text data beneath it. -/
def textOfNode : DNode → String
  | .elem _ _ cs => textOfList cs
  | .text s => s
def textOfList : DNodeList → String
  | .nil => ""
  | .cons c rest => textOfNode c ++ textOfList rest
end

/-- Model of the external selector engine: a selector matches an element
whose tag equals it (text nodes match nothing). -/
@[simp] def selMatches (sel : String) : DNode → Bool
  | .elem t _ _ => t == sel
  | .text _ => false

@[simp] def pathMatches (doc : DNode) (sel : String) (p : Path) : Bool :=
  match nodeAt doc p with
  | some n => selMatches sel n
  | none => false

/-- `c` is a strict ancestor of `p`. -/
@[simp] def strictUnder (c p : Path) : Bool :=
  c.isPrefixOf p && decide (c.length < p.length)

/-- `$(sel, ctx)`: the descendants of any context node that match, in document
order and without duplicates (the filter over the document-ordered master list
gives cheerio's ordering and dedup for free). -/
def queryCtx (doc : DNode) (ctxPaths : List Path) (sel : String) : List Path :=
  (allPaths doc).filter (fun p => pathMatches doc sel p && ctxPaths.any (fun c => strictUnder c p))

/-- Attribute lookup on the node at a path. -/
@[simp] def attrOf (doc : DNode) (p : Path) (a : String) : Option String :=
  match nodeAt doc p with
  | some (.elem _ attrs _) => attrs.lookup a
  | _ => none

/-- `.text()` of a cheerio selection: concatenated text of every match. -/
def textOfPaths (doc : DNode) (ps : List Path) : String :=
  ps.foldr (fun p acc =>
    (match nodeAt doc p with
     | some n => textOfNode n
     | none => "") ++ acc) ""

/-- The chain `p, dropLast p, …, []`: the node and its ancestors, nearest
first. -/
def ancestorChain (p : Path) : List Path :=
  ((List.range (p.length + 1)).reverse).map (fun k => p.take k)

/-- `.closest(sel)` for one node: nearest ancestor-or-self matching `sel`. -/
def closestOne (doc : DNode) (sel : String) (p : Path) : Option Path :=
  (ancestorChain p).find? (fun q => pathMatches doc sel q)

/-- `.closest(sel)` for a selection: per-element nearest matching
ancestor-or-self, deduplicated, in document order. -/
def closestSet (doc : DNode) (sel : String) (ps : List Path) : List Path :=
  let hits := ps.filterMap (closestOne doc sel)
  (allPaths doc).filter (fun q => hits.contains q)

/-- The direct children (element and text nodes alike) of the node at `p`,
as paths; `.contents()` of a single node. -/
def childPaths (doc : DNode) (p : Path) : List Path :=
  match nodeAt doc p with
  | some n => (List.range (childrenOf n).length).map (fun i => p ++ [i])
  | none => []

/-! ## JavaScript values and the engine's element variable -/

/-- The JavaScript values the engine stores into results. -/
inductive JsVal where
  | str (s : String)
  | undef
  | nullV
  | obj (fields : List (String × JsVal))
  | arr (elems : List JsVal)

/-- JavaScript truthiness on the values above (objects and arrays are always
truthy, the empty string / undefined / null are falsy). -/
def truthy : JsVal → Bool
  | .str s => s != ""
  | .undef => false
  | .nullV => false
  | .obj _ => true
  | .arr _ => true

/-- The possible values of the JavaScript variables `context` and `element`
inside `handleDataObj`:
`undefined` (what the root call passes for `context`), the document handle
`$` itself (what the dead `context === $` guard compares against), a cheerio
selection, a raw DOM node (the `texteq` branch assigns `child`, a raw node),
or the detached empty document `cheerio.load('')`. -/
inductive Elem where
  | undef
  | dollar
  | sel (ms : List Path)
  | raw (p : Path)
  | loadEmpty
deriving DecidableEq

def Elem.isDollar : Elem → Bool
  | .dollar => true
  | _ => false

/-- A user `convert` function: called as `convert(value, element)` (the list
branch passes only one argument, i.e. `undefined` for the element). -/
abbrev Convert := JsVal → Elem → JsVal

/-- The `how` accessor: a built-in accessor name (`element[how]()`), the
attribute reader installed by `normalizeOpt` when `attr` is set, the
`elm => elm.data` reader installed by the `texteq` branch, or a caller
supplied function. -/
inductive How where
  | builtin (nm : String)
  | attrReader (a : String)
  | textData
  | fn (f : Elem → JsVal)

/-- The only falsy `how` a schema can hold is an empty accessor name
(functions are truthy); `objDef(v, 'how', 'text', true)` re-defaults falsy
values. -/
def howFalsy : How → Bool
  | .builtin nm => nm == ""
  | _ => false

/-! ## Schemas (the caller's raw field definitions) -/

mutual
/-- A raw field definition: either the string shorthand for a selector, or an
options object whose fields may each be absent. The field names are those of
the source (`eq`, `texteq`, `closest`, `trimValue`, …); `name` is writable
because `handleDataObj` assigns `value.name = key` into the caller's object. -/
inductive RawDef where
  | strDef (s : String)
  | objDef (selector : Option String) (listItem : Option String)
      (data : Option Schema) (how : Option How) (attr : Option String)
      (trimValue : Option Bool) (closest : Option String)
      (eq : Option Nat) (texteq : Option Nat)
      (convert : Option Convert) (name : Option String)
/-- A schema: an ordered mapping of field name to raw definition. -/
inductive Schema where
  | nil
  | cons (key : String) (v : RawDef) (rest : Schema)
end

def Schema.isNil : Schema → Bool
  | .nil => true
  | .cons .. => false

def Schema.keys : Schema → List String
  | .nil => []
  | .cons k _ rest => k :: rest.keys

/-- Build a schema from a Lean association list. -/
def schemaOf : List (String × RawDef) → Schema
  | [] => .nil
  | (k, v) :: rest => .cons k v (schemaOf rest)

/-- Convenience record for building `RawDef.objDef` values (all fields
default to absent, as in a JS object literal that omits them). -/
structure RawFDesc where
  selector : Option String := none
  listItem : Option String := none
  data : Option Schema := none
  how : Option How := none
  attr : Option String := none
  trimValue : Option Bool := none
  closest : Option String := none
  eq : Option Nat := none
  texteq : Option Nat := none
  convert : Option Convert := none
  name : Option String := none

def RawFDesc.toDef (r : RawFDesc) : RawDef :=
  .objDef r.selector r.listItem r.data r.how r.attr r.trimValue r.closest
    r.eq r.texteq r.convert r.name

/-- A field descriptor once `normalizeOpt` has filled the defaults: `data`,
`how`, `trimValue` and `closest` are then always present. -/
structure FDesc where
  selector : Option String
  listItem : Option String
  data : Schema
  how : How
  attr : Option String
  trimValue : Bool
  closest : String
  eq : Option Nat
  texteq : Option Nat
  convert : Option Convert
  name : Option String

/-- Writing the descriptor back as the value stored in the caller's schema
slot (the JS object was mutated in place, so the slot now holds every field). -/
def FDesc.toRaw (v : FDesc) : RawDef :=
  .objDef v.selector v.listItem (some v.data) (some v.how) v.attr
    (some v.trimValue) (some v.closest) v.eq v.texteq v.convert v.name

/-- JS truthiness of an optional string option (absent and `''` are falsy). -/
def truthyS : Option String → Bool
  | some s => s != ""
  | none => false

/-- `function normalizeOpt(v)`: the string shorthand becomes `{selector: v}`
(a fresh object); then `objDef(v,'data',{})`, `objDef(v,'how','text',true)`
(the `true` flag re-defaults falsy values), the unconditional `attr` override
`v.how = element => element.attr(v.attr)` guarded by `if (v.attr)`
(truthiness), `objDef(v,'trimValue',true)` and `objDef(v,'closest','')`. -/
def normalizeOpt : RawDef → FDesc
  | .strDef s =>
    { selector := some s, listItem := none, data := .nil,
      how := .builtin "text", attr := none, trimValue := true, closest := "",
      eq := none, texteq := none, convert := none, name := none }
  | .objDef sel li dat how attr tv cl eqv te cv nm =>
    let how1 : How :=
      match how with
      | none => .builtin "text"
      | some h => if howFalsy h then .builtin "text" else h
    let how2 : How :=
      match attr with
      | some a => if a != "" then .attrReader a else how1
      | none => how1
    { selector := sel, listItem := li, data := dat.getD .nil, how := how2,
      attr := attr, trimValue := tv.getD true, closest := cl.getD "",
      eq := eqv, texteq := te, convert := cv, name := nm }

/-- What the caller's schema slot holds after the engine processed the entry:
a string shorthand is left alone (`normalizeOpt` built a fresh object for it),
an options object was mutated into the full descriptor. -/
def slotAfter : RawDef → FDesc → RawDef
  | .strDef s, _ => .strDef s
  | .objDef .., v => v.toRaw

/-- JavaScript whitespace for `String.prototype.trim` (model). -/
def isWS (c : Char) : Bool := c == ' ' || c == '\t' || c == '\n' || c == '\r'

/-- `key.trim()`: strip leading and trailing whitespace (executable model of
the JS builtin). -/
def jsTrim (s : String) : String :=
  String.mk (((s.data.dropWhile isWS).reverse.dropWhile isWS).reverse)

/-! ## Errors and the cheerio operations the engine invokes -/

/-- What an extraction can throw: the `Err` object built with code
`NO_ELEMENT_SELECTED` (it carries the offending descriptor), an implicit
JavaScript `TypeError` (property access on `undefined`, or calling a method
a raw DOM node / detached document does not have), or the fuel artifact of
this embedding (unreachable at the fuel the entry point supplies). -/
inductive JsErr where
  | configError (code : String) (option : FDesc)
  | typeError (msg : String)
  | fuelOut

def JsErr.isConfig : JsErr → Bool
  | .configError .. => true
  | _ => false

/-- A string tag for the error kind, used to state theorems without needing
decidable equality on descriptors. -/
def JsErr.kind : JsErr → String
  | .configError code _ => code
  | .typeError _ => "TypeError"
  | .fuelOut => "FUEL"

/-- `$(sel, context)`: with an undefined (or `$`) context the whole document
is searched; a selection searches below each match; a raw node below itself;
the detached empty document has no descendants. -/
def jquery (doc : DNode) (sel : String) (ctx : Elem) : List Path :=
  match ctx with
  | .undef => queryCtx doc [[]] sel
  | .dollar => queryCtx doc [[]] sel
  | .sel ps => queryCtx doc ps sel
  | .raw p => queryCtx doc [p] sel
  | .loadEmpty => []

/-- `element.eq(n)`: the nth match as a one-element selection (empty when out
of range). Only selections have `.eq`; `undefined` and raw nodes throw. -/
def elemEq : Elem → Nat → Except JsErr Elem
  | .sel ps, n => .ok (.sel ((ps.drop n).take 1))
  | .undef, _ => .error (.typeError "Cannot read properties of undefined, reading eq")
  | _, _ => .error (.typeError "element.eq is not a function")

/-- `element.contents()`: the direct children of every node of a selection.
Only selections have `.contents`. -/
def elemContents (doc : DNode) : Elem → Except JsErr (List Path)
  | .sel ps => .ok (ps.foldr (fun p acc => childPaths doc p ++ acc) [])
  | .undef => .error (.typeError "Cannot read properties of undefined, reading contents")
  | _ => .error (.typeError "element.contents is not a function")

/-- The `texteq` scan: walk the children, counting only text nodes, and
return the one at the requested text-node index (if any). -/
def findTextChild (doc : DNode) : List Path → Nat → Option Path
  | [], _ => none
  | p :: rest, k =>
    match nodeAt doc p with
    | some (.text _) => if k = 0 then some p else findTextChild doc rest (k - 1)
    | _ => findTextChild doc rest k

/-- `element.closest(sel)`. Only selections have `.closest`: the raw text
node or detached document that `texteq` leaves behind throws here. -/
def elemClosest (doc : DNode) : Elem → String → Except JsErr Elem
  | .sel ps, c => .ok (.sel (closestSet doc c ps))
  | .undef, _ => .error (.typeError "Cannot read properties of undefined, reading closest")
  | _, _ => .error (.typeError "element.closest is not a function")

/-- `element.attr(a)` on a selection: the attribute of the first match,
`undefined` when the selection is empty or the attribute absent. -/
def elemAttr (doc : DNode) (ps : List Path) (a : String) : JsVal :=
  match ps with
  | [] => .undef
  | p :: _ =>
    match attrOf doc p a with
    | none => .undef
    | some s => .str s

/-- `typpy(value.how, Function) ? value.how(element) : element[value.how]()`.
The collaborator's accessor set is modelled as the `text` accessor (the only
one the claims exercise); an unknown accessor name, like any method access on
`undefined`/raw nodes, is a TypeError.  `textData` is `elm => elm.data`: raw
character data on a text node, `undefined` elsewhere (no property access on
`undefined` happens there, since `elm` is an object in every reachable case). -/
def applyHow (doc : DNode) : How → Elem → Except JsErr JsVal
  | .builtin nm, .sel ps =>
    if nm == "text" then .ok (.str (textOfPaths doc ps))
    else .error (.typeError "element[how] is not a function")
  | .builtin nm, .loadEmpty =>
    if nm == "text" then .ok (.str "")
    else .error (.typeError "element[how] is not a function")
  | .builtin nm, .dollar =>
    if nm == "text" then .ok (.str (textOfNode doc))
    else .error (.typeError "element[how] is not a function")
  | .builtin _, .undef =>
    .error (.typeError "Cannot read properties of undefined, reading how")
  | .builtin _, .raw _ => .error (.typeError "element[how] is not a function")
  | .attrReader a, .sel ps => .ok (elemAttr doc ps a)
  | .attrReader _, .undef =>
    .error (.typeError "Cannot read properties of undefined, reading attr")
  | .attrReader _, _ => .error (.typeError "element.attr is not a function")
  | .textData, .raw p =>
    .ok (match nodeAt doc p with
         | some (.text s) => .str s
         | _ => .undef)
  | .textData, .undef =>
    .error (.typeError "Cannot read properties of undefined, reading data")
  | .textData, _ => .ok .undef
  | .fn f, e => .ok (f e)

/-! ## Result records -/

/-- The `pageData` object being assembled: field name to value, in insertion
order. -/
abbrev PageData := List (String × JsVal)

def lookupField : PageData → String → Option JsVal
  | [], _ => none
  | (k, x) :: rest, k' => if k == k' then some x else lookupField rest k'

/-- `pageData[k] = x` with JS object semantics: overwrite in place if the key
exists, append otherwise. -/
def setField (pd : PageData) (k : String) (x : JsVal) : PageData :=
  if pd.any (fun q => q.1 == k) then
    pd.map (fun q => if q.1 == k then (k, x) else q)
  else pd ++ [(k, x)]

/-- The empty object `{}` assigned by `value.data.___raw = {}`. -/
def emptyObjDef : RawDef :=
  .objDef none none none none none none none none none none none

/-- The synthetic one-field schema a list field with an empty sub-schema is
given: `{___raw: {}}`. -/
def synthSchema : Schema := .cons "___raw" emptyObjDef .nil

/-! ## Fuel

`handleDataObj` recurses through sub-schemas and through the synthetic
`___raw` schema, which is not a sub-term of the input; the Lean definition is
therefore fueled.  `needSchema` computes the recursion depth actually used,
and is what the public entry point passes; it is preserved exactly by the
schema mutation, so re-running on a mutated schema uses the same fuel. -/

mutual
def needDef : RawDef → Nat
  | .strDef _ => 0
  | .objDef _ li dat _ _ _ _ _ _ _ _ =>
    match dat with
    | none => if truthyS li then 1 else 0
    | some d => if d.isNil then (if truthyS li then 1 else 0) else needSchema d
def needSchema : Schema → Nat
  | .nil => 1
  | .cons _ v rest => max (needDef v + 1) (needSchema rest)
end

/-! ## The engine: `function handleDataObj($, data, context)`

Translated clause by clause from the source.  The returned pair is
(result-or-throw, the schema object as the caller's mutated objects now hold
it).  `pd` is the `pageData` accumulator of the `for … of Object.entries`
loop. -/

mutual
def handleS (doc : DNode) : Nat → Schema → Elem → PageData →
    (Except JsErr PageData) × Schema
  | 0, s, _, _ => (.error .fuelOut, s)
  | _ + 1, .nil, _, pd => (.ok pd, .nil)
  | f + 1, .cons k rd rest, ctx, pd =>
    -- value = normalizeOpt(value); value.name = key;
    let v0 := normalizeOpt rd
    let v : FDesc := { v0 with name := some k }
    -- if (context === $ && !value.selector && !value.listItem) throw new Err(...)
    if ctx.isDollar && !truthyS v.selector && !truthyS v.listItem then
      (.error (.configError "NO_ELEMENT_SELECTED" v), .cons k (slotAfter rd v) rest)
    else
      -- let element = value.selector ? $(value.selector, context) : context;
      let element : Elem :=
        if truthyS v.selector then .sel (jquery doc (v.selector.getD "") ctx) else ctx
      if truthyS v.listItem then
        -- let items = $(value.listItem, context);
        let items := jquery doc (v.listItem.getD "") ctx
        -- if (isEmptyObject(value.data)) value.data.___raw = {};
        let data1 := if v.data.isNil then synthSchema else v.data
        match handleItems doc f data1 items v.convert with
        | (.error e, d') => (.error e, .cons k (slotAfter rd { v with data := d' }) rest)
        | (.ok outs, d') =>
          let v' : FDesc := { v with data := d' }
          let pd' := setField pd (v'.name.getD "") (.arr outs)
          let (res, rest') := handleS doc (f + 1) rest ctx pd'
          (res, .cons k (slotAfter rd v') rest')
      else
        -- if (typpy(value.eq, Number)) element = element.eq(value.eq);
        let stepEq : Except JsErr Elem :=
          match v.eq with
          | some n => elemEq element n
          | none => .ok element
        match stepEq with
        | .error e => (.error e, .cons k (slotAfter rd v) rest)
        | .ok el1 =>
          -- if (typpy(value.texteq, Number)) { scan direct text children;
          --   on miss element = cheerio.load(''); value.how = elm => elm.data; }
          let stepTe : Except JsErr (Elem × FDesc) :=
            match v.texteq with
            | some n =>
              match elemContents doc el1 with
              | .error e => .error e
              | .ok children =>
                let el2 : Elem :=
                  match findTextChild doc children n with
                  | some p => .raw p
                  | none => .loadEmpty
                .ok (el2, { v with how := .textData })
            | none => .ok (el1, v)
          match stepTe with
          | .error e => (.error e, .cons k (slotAfter rd v) rest)
          | .ok (el2, v2) =>
            -- if (value.closest) element = element.closest(value.closest);
            let stepCl : Except JsErr Elem :=
              if v2.closest != "" then elemClosest doc el2 v2.closest else .ok el2
            match stepCl with
            | .error e => (.error e, .cons k (slotAfter rd v2) rest)
            | .ok el3 =>
              if !v2.data.isNil then
                -- pageData[value.name] = handleDataObj($, value.data, element);
                match handleS doc f v2.data el3 [] with
                | (.error e, d') =>
                  (.error e, .cons k (slotAfter rd { v2 with data := d' }) rest)
                | (.ok sub, d') =>
                  let v3 : FDesc := { v2 with data := d' }
                  let pd' := setField pd (v3.name.getD "") (.obj sub)
                  let (res, rest') := handleS doc (f + 1) rest ctx pd'
                  (res, .cons k (slotAfter rd v3) rest')
              else
                -- let key = typpy(value.how, Function) ? value.how(element)
                --                                      : element[value.how]();
                match applyHow doc v2.how el3 with
                | .error e => (.error e, .cons k (slotAfter rd v2) rest)
                | .ok key0 =>
                  -- key = key === undefined ? '' : key;
                  let key1 : JsVal := match key0 with | .undef => .str "" | x => x
                  -- if (value.trimValue && typpy(key, String)) key = key.trim();
                  let key2 : JsVal :=
                    match key1 with
                    | .str s => if v2.trimValue then .str (jsTrim s) else .str s
                    | x => x
                  -- if (value.convert) key = value.convert(key, element);
                  let key3 : JsVal :=
                    match v2.convert with
                    | some c => c key2 el3
                    | none => key2
                  let pd' := setField pd (v2.name.getD "") key3
                  let (res, rest') := handleS doc (f + 1) rest ctx pd'
                  (res, .cons k (slotAfter rd v2) rest')
termination_by fuel s _ _ => (fuel, 1, sizeOf s)

/-- The `for (let i = 0; i < items.length; ++i)` loop of the list branch:
each item is extracted with the (threaded) sub-schema against `items.eq(i)`,
unwrapped through `doc.___raw || doc` and passed through the field's
`convert` (called with a single argument). -/
def handleItems (doc : DNode) : Nat → Schema → List Path → Option Convert →
    (Except JsErr (List JsVal)) × Schema
  | _, d, [], _ => (.ok [], d)
  | f, d, it :: restIts, conv =>
    match handleS doc f d (.sel [it]) [] with
    | (.error e, d') => (.error e, d')
    | (.ok doci, d') =>
      let x : JsVal :=
        match lookupField doci "___raw" with
        | some w => if truthy w then w else .obj doci
        | none => .obj doci
      let out : JsVal :=
        match conv with
        | some c => c x .undef
        | none => x
      match handleItems doc f d' restIts conv with
      | (.error e, d2) => (.error e, d2)
      | (.ok outs, d2) => (.ok (out :: outs), d2)
termination_by fuel _ its _ => (fuel, 2, sizeOf its)
end

/-- `scrapeIt.scrapeHTML($, opts)`: the root call `handleDataObj($, opts)`
passes no context, i.e. `context = undefined` (string input is parsed by the
external collaborator before the core runs, so the model takes the tree). -/
def scrapeHTML (doc : DNode) (opts : Schema) : (Except JsErr PageData) × Schema :=
  handleS doc (needSchema opts) opts .undef []

/-! ## Observation helpers -/

/-- Key presence in a result record. -/
def hasKey (pd : PageData) (k : String) : Bool := pd.any (fun q => q.1 == k)

/-- The slot signature of a schema: each key, together with the selector
string when the slot is a string shorthand (string slots are never replaced;
object slots are mutated but keep their position). -/
def defSig : RawDef → Option String
  | .strDef s => some s
  | .objDef .. => none

def slotSig : Schema → List (String × Option String)
  | .nil => []
  | .cons k rd rest => (k, defSig rd) :: slotSig rest

/-- Whether an extraction outcome is the `NO_ELEMENT_SELECTED` configuration
error. -/
def isConfigExc {α : Type} : Except JsErr α → Bool
  | .error e => e.isConfig
  | .ok _ => false

/-- What a second `normalizeOpt` pass does to an already-present `how`
(the `true` flag re-defaults falsy values, and `attr` overrides again). -/
def renormHow (h : How) (attr : Option String) : How :=
  let h1 := if howFalsy h then .builtin "text" else h
  match attr with
  | some a => if a != "" then .attrReader a else h1
  | none => h1

/-- The error kind of an extraction outcome ("ok" when none was thrown). -/
def resKind : (Except JsErr PageData) × Schema → String
  | (.ok _, _) => "ok"
  | (.error e, _) => e.kind

/-! ## Spec-side definitions (for the refinement claims)

These follow the specification's words, not the code, and are compared with
the engine. -/

/-- Spec §4.4 step 3: the element/scope resolved by the selector-or-inherit
step (this one coincides with the code's `element`). -/
def specScope (doc : DNode) (v : FDesc) (ctx : Elem) : Elem :=
  if truthyS v.selector then .sel (jquery doc (v.selector.getD "") ctx) else ctx

/-- Modelled from the spec (§4.4 step 4, claim C3): "query `listItem` within
the resolved scope to obtain an ordered sequence of item nodes". -/
def specListItems (doc : DNode) (v : FDesc) (ctx : Elem) : List Path :=
  jquery doc (v.listItem.getD "") (specScope doc v ctx)

/-- The direct children of the narrowed element, for the spec-side `texteq`
step. -/
def contentsOf (doc : DNode) : Elem → List Path
  | .sel ps => ps.foldr (fun p acc => childPaths doc p ++ acc) []
  | .raw p => childPaths doc p
  | _ => []

/-- Modelled from the spec (§4.2, claim C6): the narrowing pipeline in the
fixed order eq → texteq → closest, every step total: an out-of-range `eq`
yields the empty selection, a missing `texteq` text child the detached empty
node, and `closest` "replaces the element with its nearest matching
ancestor" (also for the text node `texteq` selects).  The returned flag says
whether `texteq` overrode `how`. -/
def specNarrow (doc : DNode) (v : FDesc) (el : Elem) : Elem × Bool :=
  let e1 : Elem :=
    match v.eq with
    | some n => (match el with | .sel ps => .sel ((ps.drop n).take 1) | e => e)
    | none => el
  let step2 : Elem × Bool :=
    match v.texteq with
    | some n =>
      (match findTextChild doc (contentsOf doc e1) n with
       | some p => (.raw p, true)
       | none => (.loadEmpty, true))
    | none => (e1, false)
  let e3 : Elem :=
    if v.closest != "" then
      match step2.1 with
      | .sel ps => .sel (closestSet doc v.closest ps)
      | .raw p => (match closestOne doc v.closest p with
                   | some q => .sel [q]
                   | none => .sel [])
      | e => e
    else step2.1
  (e3, step2.2)

/-! ## Concrete documents and schemas used by counterexamples and witnesses -/

/-- `<body><ul><li>A</li><li>B</li></ul></body>` -/
def docA : DNode :=
  .elem "body" [] (dlist [
    .elem "ul" [] (dlist [
      .elem "li" [] (dlist [.text "A"]),
      .elem "li" [] (dlist [.text "B"])])])

/-- `<body><ul><li>A</li><li></li></ul></body>` — the second item's text is
empty, hence falsy. -/
def docEmpty : DNode :=
  .elem "body" [] (dlist [
    .elem "ul" [] (dlist [
      .elem "li" [] (dlist [.text "A"]),
      .elem "li" [] (dlist [])])])

/-- `<body><sec><li>A</li></sec><span><li>B</li></span></body>` — one list
item inside the `sec` scope, one outside it. -/
def docScoped : DNode :=
  .elem "body" [] (dlist [
    .elem "sec" [] (dlist [.elem "li" [] (dlist [.text "A"])]),
    .elem "span" [] (dlist [.elem "li" [] (dlist [.text "B"])])])

/-- `<body><img src="pic.png">T</img></body>` (an image carrying both an
attribute and text content, to separate the two readers). -/
def docImg : DNode :=
  .elem "body" [] (dlist [
    .elem "img" [("src", "pic.png")] (dlist [.text "T"])])

/-- `<body><div><p>x<b></b>y</p></div></body>` — a `p` with two direct text
children, inside a `div` (for `texteq`/`closest`). -/
def docText : DNode :=
  .elem "body" [] (dlist [
    .elem "div" [] (dlist [
      .elem "p" [] (dlist [.text "x", .elem "b" [] (dlist []), .text "y"])])])

/-! ## Semantic normal form of a schema

The in-place mutation never changes behaviour; this is made precise through
a canonical form: two schemas with the same normal form extract identically,
and a run's mutated schema keeps the normal form of its input. -/

/-- The accessor a field effectively reads with: on a non-list field a
`texteq` index always overrides `how` with the text-node reader before any
use. -/
def canonHow (w : FDesc) : How :=
  if w.texteq.isSome && !truthyS w.listItem then .textData else w.how

/-- The normal form of the synthetic `{___raw: {}}` sub-schema. -/
def synthNorm : Schema :=
  .cons "___raw"
    (.objDef none none (some .nil) (some (.builtin "text")) none (some true) (some "")
      none none none (some "___raw")) .nil

mutual
/-- Canonical form of one slot at key `k`: the normalized descriptor with the
effective accessor, the effective list sub-schema (empty list sub-schemas
mean `{___raw: {}}`), and the name the engine assigns. -/
def canonDef (k : String) : RawDef → RawDef
  | .strDef s => .strDef s
  | .objDef sel li (some d) how attr tv cl eqv te cv nm =>
    let w := normalizeOpt (.objDef sel li (some d) how attr tv cl eqv te cv nm)
    let dat2 := if truthyS li && d.isNil then synthNorm else semNorm d
    .objDef w.selector w.listItem (some dat2) (some (canonHow w)) w.attr
      (some w.trimValue) (some w.closest) w.eq w.texteq w.convert (some k)
  | .objDef sel li none how attr tv cl eqv te cv nm =>
    let w := normalizeOpt (.objDef sel li none how attr tv cl eqv te cv nm)
    let dat2 := if truthyS li then synthNorm else Schema.nil
    .objDef w.selector w.listItem (some dat2) (some (canonHow w)) w.attr
      (some w.trimValue) (some w.closest) w.eq w.texteq w.convert (some k)
def semNorm : Schema → Schema
  | .nil => .nil
  | .cons k rd rest => .cons k (canonDef k rd) (semNorm rest)
end

/-! # Theorems

## Small facts about the step operations -/

theorem elemEq_error {el : Elem} {n : Nat} {e : JsErr} (h : elemEq el n = .error e) :
    e.isConfig = false := by
  cases el <;> simp [elemEq] at h <;> simp [← h, JsErr.isConfig]

theorem elemContents_error {doc : DNode} {el : Elem} {e : JsErr}
    (h : elemContents doc el = .error e) : e.isConfig = false := by
  cases el <;> simp [elemContents] at h <;> simp [← h, JsErr.isConfig]

theorem elemClosest_error {doc : DNode} {el : Elem} {c : String} {e : JsErr}
    (h : elemClosest doc el c = .error e) : e.isConfig = false := by
  cases el <;> simp [elemClosest] at h <;> simp [← h, JsErr.isConfig]

theorem applyHow_error {doc : DNode} {hw : How} {el : Elem} {e : JsErr}
    (h : applyHow doc hw el = .error e) : e.isConfig = false := by
  cases hw <;> cases el <;>
    simp only [applyHow] at h <;>
    (try split at h) <;>
    (try cases h) <;>
    simp_all [JsErr.isConfig]

theorem elemEq_ok_nd {el el' : Elem} {n : Nat} (h : elemEq el n = .ok el') :
    el'.isDollar = false := by
  cases el <;> simp [elemEq] at h <;> simp [← h, Elem.isDollar]

theorem elemClosest_ok_nd {doc : DNode} {el el' : Elem} {c : String}
    (h : elemClosest doc el c = .ok el') : el'.isDollar = false := by
  cases el <;> simp [elemClosest] at h <;> simp [← h, Elem.isDollar]

/-! ## The configuration error is unreachable

The root call passes `context = undefined` and every recursive call passes a
selection, so `context === $` never holds and the `NO_ELEMENT_SELECTED`
throw is dead code. -/

set_option maxHeartbeats 1000000 in
theorem handleS_no_config (doc : DNode) :
    ∀ (f : Nat) (s : Schema) (ctx : Elem) (pd : PageData),
      ctx.isDollar = false → isConfigExc (handleS doc f s ctx pd).1 = false := by
  refine handleS.induct doc
    (fun f s ctx pd => ctx.isDollar = false → isConfigExc (handleS doc f s ctx pd).1 = false)
    (fun f d its conv => isConfigExc (handleItems doc f d its conv).1 = false)
    ?_ ?_ ?_ ?_ ?_ ?_ ?_ ?_ ?_ ?_ ?_ ?_ ?_ ?_ ?_ ?_
  case _ =>
    intro s x x1 _
    simp [handleS, isConfigExc, JsErr.isConfig]
  case _ =>
    intro n x pd _
    simp [handleS, isConfigExc]
  case _ =>
    intro f k rd rest ctx pd v0 v hguard hctx
    rw [hctx] at hguard
    simp at hguard
  case _ =>
    -- list branch, handleItems errors
    intro f k rd rest ctx pd v0 v hguard hli items data1 e d' items_eq ih hctx
    rw [items_eq] at ih
    simp only [data1, items, v, v0] at items_eq
    simp only [handleS]
    simp [hctx, hli] at items_eq ⊢
    rw [items_eq]
    simpa [isConfigExc] using ih
  case _ =>
    -- list branch, handleItems ok, then the rest of the schema
    intro f k rd rest ctx pd v0 v hguard hli items data1 outs d' items_eq v' pd' res rest'
      rest_eq ih_items ih_rest hctx
    have hres := ih_rest hctx
    rw [rest_eq] at hres
    simp only [pd', v', data1, items, v, v0] at items_eq rest_eq
    simp only [handleS]
    simp [hctx, hli] at items_eq rest_eq ⊢
    rw [items_eq]
    simpa [rest_eq, isConfigExc] using hres
  case _ =>
    -- scalar branch, eq step throws
    intro f k rd rest ctx pd v0 v hguard element hli stepEq e hstep hctx
    simp only [stepEq, element, v, v0] at hstep
    simp only [handleS]
    simp [hctx, hli] at hstep ⊢
    rcases hv : (normalizeOpt rd).eq with _ | n
    · rw [hv] at hstep
      simp at hstep
    · rw [hv] at hstep
      simp at hstep
      simp only [hv, hstep]
      simp [isConfigExc, elemEq_error hstep]
  case _ =>
    -- scalar branch, texteq contents step throws
    intro f k rd rest ctx pd v0 v hguard element hli stepEq el1 hstepEq stepTe e hstepTe hctx
    simp only [stepTe, stepEq, element, v, v0] at hstepEq hstepTe
    simp only [handleS]
    simp [hctx, hli] at hstepEq hstepTe ⊢
    rw [hstepEq]
    rcases ht : (normalizeOpt rd).texteq with _ | n
    · rw [ht] at hstepTe
      simp at hstepTe
    · rw [ht] at hstepTe
      simp only [ht]
      rcases hc : elemContents doc el1 with e2 | children <;> rw [hc] at hstepTe
      · simp at hstepTe
        simp [← hstepTe, isConfigExc, elemContents_error hc]
      · simp at hstepTe
  case _ =>
    -- scalar branch, closest step throws
    intro f k rd rest ctx pd v0 v hguard element hli stepEq el1 hstepEq stepTe el2 v2 hstepTe
      stepCl e hstepCl hctx
    simp only [stepCl, stepTe, stepEq, element, v, v0] at hstepEq hstepTe hstepCl
    simp only [handleS]
    simp [hctx, hli] at hstepEq hstepTe hstepCl ⊢
    simp only [hstepEq]
    simp only [hstepTe]
    by_cases hcl : v2.closest = ""
    · simp [hcl] at hstepCl
    · simp [hcl] at hstepCl ⊢
      rw [hstepCl]
      simp [isConfigExc, elemClosest_error hstepCl]
  case _ =>
    -- nested branch, recursive call throws
    intro f k rd rest ctx pd v0 v hguard element hli stepEq el1 hstepEq stepTe el2 v2 hstepTe
      stepCl el3 hstepCl hdata e d' sub_eq ih hctx
    simp only [stepCl, stepTe, stepEq, element, v, v0] at hstepEq hstepTe hstepCl
    simp only [handleS]
    simp [hctx, hli] at hstepEq hstepTe hstepCl ⊢
    have h1 : el1.isDollar = false := by
      have hE := hstepEq
      rcases hv : (normalizeOpt rd).eq with _ | n
      · rw [hv] at hE
        simp at hE
        rw [← hE]
        split
        · simp [Elem.isDollar]
        · exact hctx
      · rw [hv] at hE
        simp at hE
        exact elemEq_ok_nd hE
    have h2 : el2.isDollar = false := by
      have hT := hstepTe
      rcases ht : (normalizeOpt rd).texteq with _ | n
      · rw [ht] at hT
        simp at hT
        rw [← hT.1]
        exact h1
      · rw [ht] at hT
        rcases hc : elemContents doc el1 with e2 | children
        · rw [hc] at hT
          simp at hT
        · rw [hc] at hT
          simp at hT
          rw [← hT.1]
          cases hf : findTextChild doc children n <;> simp [hf, Elem.isDollar]
    have h3 : el3.isDollar = false := by
      have hC := hstepCl
      by_cases hcl : v2.closest = ""
      · simp [hcl] at hC
        rw [← hC]
        exact h2
      · simp [hcl] at hC
        exact elemClosest_ok_nd hC
    have hsub := ih h3
    rw [sub_eq] at hsub
    simp only [hstepEq]
    simp only [hstepTe]
    simp only [hstepCl]
    simp at hdata
    simp [hdata, sub_eq]
    simpa [isConfigExc] using hsub
  case _ =>
    -- nested branch, recursive call succeeds, then the rest of the schema
    intro f k rd rest ctx pd v0 v hguard element hli stepEq el1 hstepEq stepTe el2 v2 hstepTe
      stepCl el3 hstepCl hdata sub d' sub_eq v3 pd' res rest' rest_eq ih_sub ih_rest hctx
    have hres := ih_rest hctx
    rw [rest_eq] at hres
    simp only [pd', v3] at rest_eq ih_rest
    simp only [stepCl, stepTe, stepEq, element, v, v0] at hstepEq hstepTe hstepCl
    simp only [handleS]
    simp [hctx, hli] at hstepEq hstepTe hstepCl rest_eq ⊢
    simp only [hstepEq]
    simp only [hstepTe]
    simp only [hstepCl]
    simp at hdata
    simp [hdata, sub_eq, rest_eq]
    simpa [isConfigExc] using hres
  case _ =>
    -- scalar branch, accessor throws
    intro f k rd rest ctx pd v0 v hguard element hli stepEq el1 hstepEq stepTe el2 v2 hstepTe
      stepCl el3 hstepCl hdata e how_eq hctx
    simp only [stepCl, stepTe, stepEq, element, v, v0] at hstepEq hstepTe hstepCl
    simp only [handleS]
    simp [hctx, hli] at hstepEq hstepTe hstepCl ⊢
    simp only [hstepEq]
    simp only [hstepTe]
    simp only [hstepCl]
    simp at hdata
    simp [hdata, how_eq]
    simp [isConfigExc, applyHow_error how_eq]
  case _ =>
    -- scalar branch, value stored, then the rest of the schema
    intro f k rd rest ctx pd v0 v hguard element hli stepEq el1 hstepEq stepTe el2 v2 hstepTe
      stepCl el3 hstepCl hdata key0 how_eq key1 key2 key3 pd' res rest' rest_eq ih_rest hctx
    have hres := ih_rest hctx
    rw [rest_eq] at hres
    simp only [pd', key3, key2, key1] at rest_eq
    simp only [stepCl, stepTe, stepEq, element, v, v0] at hstepEq hstepTe hstepCl
    simp only [handleS]
    simp [hctx, hli] at hstepEq hstepTe hstepCl rest_eq ⊢
    simp only [hstepEq]
    simp only [hstepTe]
    simp only [hstepCl]
    simp at hdata
    simp [hdata, how_eq, rest_eq]
    simpa [isConfigExc] using hres
  case _ =>
    -- items loop: no items left
    intro x d x1
    simp [handleItems, isConfigExc]
  case _ =>
    -- items loop: the item extraction throws
    intro f d it restIts conv e d' sub_eq ih
    have h := ih rfl
    rw [sub_eq] at h
    simp only [handleItems]
    simp [sub_eq]
    simpa [isConfigExc] using h
  case _ =>
    -- items loop: item ok, recursion on the remaining items throws
    intro f d it restIts conv sub d' sub_eq e d2 rest_eq ih1 ih2
    rw [rest_eq] at ih2
    simp only [handleItems]
    simp [sub_eq, rest_eq]
    simpa [isConfigExc] using ih2
  case _ =>
    -- items loop: everything succeeds
    intro f d it restIts conv sub d' sub_eq outs d2 rest_eq ih1 ih2
    simp only [handleItems]
    simp [sub_eq, rest_eq, isConfigExc]

/-! ## Normalization and slot bookkeeping -/

theorem normalizeOpt_toRaw (v : FDesc) :
    normalizeOpt v.toRaw = { v with how := renormHow v.how v.attr } := by
  cases v
  simp [FDesc.toRaw, normalizeOpt, renormHow]

theorem howFalsy_normalizeOpt (rd : RawDef) :
    howFalsy (normalizeOpt rd).how = false := by
  cases rd with
  | strDef s => simp [normalizeOpt, howFalsy]
  | objDef sel li dat how attr tv cl eqv te cv nm =>
    simp only [normalizeOpt]
    cases attr with
    | none =>
      cases how with
      | none => simp [howFalsy]
      | some h =>
        cases h with
        | builtin nm2 => by_cases hb : nm2 == "" <;> simp [howFalsy, hb]
        | attrReader a => simp [howFalsy]
        | textData => simp [howFalsy]
        | fn g => simp [howFalsy]
    | some a =>
      by_cases ha : a != ""
      · simp [ha, howFalsy]
      · cases how with
        | none => simp [ha, howFalsy]
        | some h =>
          cases h with
          | builtin nm2 => by_cases hb : nm2 == "" <;> simp [howFalsy, ha, hb]
          | attrReader b => simp [ha, howFalsy]
          | textData => simp [ha, howFalsy]
          | fn g => simp [ha, howFalsy]

theorem renormHow_normalizeOpt (rd : RawDef) :
    renormHow (normalizeOpt rd).how (normalizeOpt rd).attr = (normalizeOpt rd).how := by
  have hf := howFalsy_normalizeOpt rd
  cases rd with
  | strDef s => simp [normalizeOpt, renormHow, howFalsy]
  | objDef sel li dat how attr tv cl eqv te cv nm =>
    simp only [normalizeOpt, renormHow] at hf ⊢
    cases attr with
    | none => simp_all
    | some a => by_cases ha : a != "" <;> simp_all

theorem defSig_slotAfter (rd : RawDef) (w : FDesc) :
    defSig (slotAfter rd w) = defSig rd := by
  cases rd <;> rfl

theorem slotSig_isNil {d d' : Schema} (h : slotSig d' = slotSig d) :
    d'.isNil = d.isNil := by
  cases d' <;> cases d <;> simp_all [slotSig, Schema.isNil]

theorem needDef_toRaw (w : FDesc) : needDef (FDesc.toRaw w) =
    (if w.data.isNil then (if truthyS w.listItem then 1 else 0)
     else needSchema w.data) := rfl

theorem needDef_norm (rd : RawDef) :
    (if (normalizeOpt rd).data.isNil then (if truthyS (normalizeOpt rd).listItem then 1 else 0)
     else needSchema (normalizeOpt rd).data) = needDef rd := by
  cases rd with
  | strDef s => simp [normalizeOpt, Schema.isNil, truthyS, needDef]
  | objDef sel li dat how attr tv cl eqv te cv nm =>
    cases dat with
    | none => simp [normalizeOpt, Schema.isNil, needDef]
    | some d => cases d <;> simp [normalizeOpt, Schema.isNil, needDef]

theorem needDef_slotAfter_same (rd : RawDef) (w : FDesc)
    (hd : w.data = (normalizeOpt rd).data) (hl : w.listItem = (normalizeOpt rd).listItem) :
    needDef (slotAfter rd w) = needDef rd := by
  cases rd
  · rfl
  · rw [slotAfter, needDef_toRaw, hd, hl]
    exact needDef_norm _

theorem needDef_slotAfter_list (rd : RawDef) (w : FDesc) (d' : Schema)
    (hli : truthyS (normalizeOpt rd).listItem = true)
    (hsig : slotSig d' =
      slotSig (if (normalizeOpt rd).data.isNil then synthSchema else (normalizeOpt rd).data))
    (hneed : needSchema d' =
      needSchema (if (normalizeOpt rd).data.isNil then synthSchema else (normalizeOpt rd).data))
    (hwd : w.data = d') :
    needDef (slotAfter rd w) = needDef rd := by
  cases rd with
  | strDef str => simp [normalizeOpt, truthyS] at hli
  | objDef sel li dat how attr tv cl eqv te cv nm =>
    have hnil := slotSig_isNil hsig
    rw [slotAfter, needDef_toRaw, hwd]
    simp only [normalizeOpt, truthyS] at hli hsig hneed hnil ⊢
    cases dat with
    | none =>
      simp [Schema.isNil, synthSchema] at hnil hneed
      simp [hnil, hneed, needDef, Schema.isNil, truthyS, hli, synthSchema, needSchema, emptyObjDef]
    | some d =>
      cases d with
      | nil =>
        simp [Schema.isNil, synthSchema] at hnil hneed
        simp [hnil, hneed, needDef, Schema.isNil, truthyS, hli, synthSchema, needSchema, emptyObjDef]
      | cons k2 v2 rest2 =>
        simp [Schema.isNil] at hnil hneed
        simp [hnil, hneed, needDef, Schema.isNil]

theorem needDef_slotAfter_nested (rd : RawDef) (w : FDesc) (d' : Schema)
    (hnn : (normalizeOpt rd).data.isNil = false)
    (hsig : slotSig d' = slotSig (normalizeOpt rd).data)
    (hneed : needSchema d' = needSchema (normalizeOpt rd).data)
    (hwd : w.data = d') :
    needDef (slotAfter rd w) = needDef rd := by
  cases rd with
  | strDef str => simp [normalizeOpt, Schema.isNil] at hnn
  | objDef sel li dat how attr tv cl eqv te cv nm =>
    have hnil := slotSig_isNil hsig
    rw [slotAfter, needDef_toRaw, hwd]
    simp only [normalizeOpt] at hnn hsig hneed hnil ⊢
    cases dat with
    | none => simp [Schema.isNil] at hnn
    | some d =>
      cases d with
      | nil => simp [Schema.isNil] at hnn
      | cons k2 v2 rest2 =>
        simp [Schema.isNil] at hnil hneed
        simp [hnil, hneed, needDef, Schema.isNil]

/-! ## The schema mutation preserves slot signature and fuel requirement -/

set_option maxHeartbeats 4000000 in
theorem pres_all (doc : DNode) :
    (∀ (f : Nat) (s : Schema) (ctx : Elem) (pd : PageData), ctx.isDollar = false →
      slotSig (handleS doc f s ctx pd).2 = slotSig s ∧
      needSchema (handleS doc f s ctx pd).2 = needSchema s) ∧
    (∀ (f : Nat) (d : Schema) (its : List Path) (conv : Option Convert),
      slotSig (handleItems doc f d its conv).2 = slotSig d ∧
      needSchema (handleItems doc f d its conv).2 = needSchema d) := by
  refine handleS.mutual_induct doc
    (fun f s ctx pd => ctx.isDollar = false →
      slotSig (handleS doc f s ctx pd).2 = slotSig s ∧
      needSchema (handleS doc f s ctx pd).2 = needSchema s)
    (fun f d its conv =>
      slotSig (handleItems doc f d its conv).2 = slotSig d ∧
      needSchema (handleItems doc f d its conv).2 = needSchema d)
    ?_ ?_ ?_ ?_ ?_ ?_ ?_ ?_ ?_ ?_ ?_ ?_ ?_ ?_ ?_ ?_
  case _ =>
    intro s x x1 _
    simp [handleS]
  case _ =>
    intro n x pd _
    simp [handleS]
  case _ =>
    intro f k rd rest ctx pd v0 v hguard hctx
    rw [hctx] at hguard
    simp at hguard
  case _ =>
    -- list branch, handleItems errors
    intro f k rd rest ctx pd v0 v hguard hli items data1 e d' items_eq ih hctx
    rw [items_eq] at ih
    simp only [data1, items, v, v0] at items_eq ih
    simp only [v, v0] at hli
    simp only [handleS]
    simp [hctx, hli] at items_eq ⊢
    rw [items_eq]
    refine ⟨by simp [slotSig, defSig_slotAfter], ?_⟩
    simp only [needSchema]
    congr 1
    congr 1
    exact needDef_slotAfter_list rd _ d' hli ih.1 ih.2 (by simp)
  case _ =>
    -- list branch, handleItems ok, then the rest of the schema
    intro f k rd rest ctx pd v0 v hguard hli items data1 outs d' items_eq v' pd' res rest'
      rest_eq ih_items ih_rest hctx
    have hrest := ih_rest hctx
    rw [rest_eq] at hrest
    rw [items_eq] at ih_items
    simp only [pd', v', data1, items, v, v0] at items_eq rest_eq ih_items
    simp only [v, v0] at hli
    simp only [handleS]
    simp [hctx, hli] at items_eq rest_eq ⊢
    rw [items_eq]
    simp only [rest_eq]
    refine ⟨by simp [slotSig, defSig_slotAfter, hrest.1], ?_⟩
    simp only [needSchema]
    congr 1
    · congr 1
      exact needDef_slotAfter_list rd _ d' hli ih_items.1 ih_items.2 (by simp)
    · exact hrest.2
  case _ =>
    -- scalar branch, eq step throws
    intro f k rd rest ctx pd v0 v hguard element hli stepEq e hstep hctx
    simp only [stepEq, element, v, v0] at hstep
    simp only [v, v0] at hli
    simp only [handleS]
    simp [hctx, hli] at hstep ⊢
    rcases hv : (normalizeOpt rd).eq with _ | n
    · rw [hv] at hstep
      simp at hstep
    · rw [hv] at hstep
      simp at hstep
      simp only [hv, hstep]
      refine ⟨by simp [slotSig, defSig_slotAfter], ?_⟩
      simp only [needSchema]
      congr 1
      congr 1
      exact needDef_slotAfter_same rd _ (by simp) (by simp)
  case _ =>
    -- scalar branch, texteq contents step throws
    intro f k rd rest ctx pd v0 v hguard element hli stepEq el1 hstepEq stepTe e hstepTe hctx
    simp only [stepTe, stepEq, element, v, v0] at hstepEq hstepTe
    simp only [v, v0] at hli
    simp only [handleS]
    simp [hctx, hli] at hstepEq hstepTe ⊢
    rw [hstepEq]
    rcases ht : (normalizeOpt rd).texteq with _ | n
    · rw [ht] at hstepTe
      simp at hstepTe
    · rw [ht] at hstepTe
      simp only [ht]
      rcases hc : elemContents doc el1 with e2 | children <;> rw [hc] at hstepTe
      · simp at hstepTe
        refine ⟨by simp [slotSig, defSig_slotAfter], ?_⟩
        simp only [needSchema]
        congr 1
        congr 1
        exact needDef_slotAfter_same rd _ (by simp) (by simp)
      · simp at hstepTe
  case _ =>
    -- scalar branch, closest step throws
    intro f k rd rest ctx pd v0 v hguard element hli stepEq el1 hstepEq stepTe el2 v2 hstepTe
      stepCl e hstepCl hctx
    simp only [stepCl, stepTe, stepEq, element, v, v0] at hstepEq hstepTe hstepCl
    simp only [v, v0] at hli
    simp only [handleS]
    simp [hctx, hli] at hstepEq hstepTe hstepCl ⊢
    have hv2 : v2.data = (normalizeOpt rd).data ∧ v2.listItem = (normalizeOpt rd).listItem := by
      have hT := hstepTe
      rcases ht : (normalizeOpt rd).texteq with _ | n
      · rw [ht] at hT
        simp at hT
        rw [← hT.2]
        exact ⟨rfl, rfl⟩
      · rw [ht] at hT
        rcases hc : elemContents doc el1 with e2 | children
        · rw [hc] at hT
          simp at hT
        · rw [hc] at hT
          simp at hT
          rw [← hT.2]
          exact ⟨rfl, rfl⟩
    simp only [hstepEq]
    simp only [hstepTe]
    by_cases hcl : v2.closest = ""
    · simp [hcl] at hstepCl
    · simp [hcl] at hstepCl ⊢
      rw [hstepCl]
      refine ⟨by simp [slotSig, defSig_slotAfter], ?_⟩
      simp only [needSchema]
      congr 1
      congr 1
      exact needDef_slotAfter_same rd _ hv2.1 hv2.2
  case _ =>
    -- nested branch, recursive call throws
    intro f k rd rest ctx pd v0 v hguard element hli stepEq el1 hstepEq stepTe el2 v2 hstepTe
      stepCl el3 hstepCl hdata e d' sub_eq ih hctx
    simp only [stepCl, stepTe, stepEq, element, v, v0] at hstepEq hstepTe hstepCl
    simp only [v, v0] at hli
    simp only [handleS]
    simp [hctx, hli] at hstepEq hstepTe hstepCl ⊢
    have hv2 : v2.data = (normalizeOpt rd).data ∧ v2.listItem = (normalizeOpt rd).listItem := by
      have hT := hstepTe
      rcases ht : (normalizeOpt rd).texteq with _ | n
      · rw [ht] at hT
        simp at hT
        rw [← hT.2]
        exact ⟨rfl, rfl⟩
      · rw [ht] at hT
        rcases hc : elemContents doc el1 with e2 | children
        · rw [hc] at hT
          simp at hT
        · rw [hc] at hT
          simp at hT
          rw [← hT.2]
          exact ⟨rfl, rfl⟩
    have h1 : el1.isDollar = false := by
      have hE := hstepEq
      rcases hv : (normalizeOpt rd).eq with _ | n
      · rw [hv] at hE
        simp at hE
        rw [← hE]
        split
        · simp [Elem.isDollar]
        · exact hctx
      · rw [hv] at hE
        simp at hE
        exact elemEq_ok_nd hE
    have h2 : el2.isDollar = false := by
      have hT := hstepTe
      rcases ht : (normalizeOpt rd).texteq with _ | n
      · rw [ht] at hT
        simp at hT
        rw [← hT.1]
        exact h1
      · rw [ht] at hT
        rcases hc : elemContents doc el1 with e2 | children
        · rw [hc] at hT
          simp at hT
        · rw [hc] at hT
          simp at hT
          rw [← hT.1]
          cases hf : findTextChild doc children n <;> simp [hf, Elem.isDollar]
    have h3 : el3.isDollar = false := by
      have hC := hstepCl
      by_cases hcl : v2.closest = ""
      · simp [hcl] at hC
        rw [← hC]
        exact h2
      · simp [hcl] at hC
        exact elemClosest_ok_nd hC
    have hsub := ih h3
    rw [sub_eq] at hsub
    rw [hv2.1] at hsub
    simp at hdata
    rw [hv2.1] at hdata
    rw [hv2.1] at sub_eq
    simp only [hstepEq]
    simp only [hstepTe]
    simp only [hstepCl]
    simp [hdata, hv2.1, sub_eq]
    refine ⟨by simp [slotSig, defSig_slotAfter], ?_⟩
    simp only [needSchema]
    congr 1
    congr 1
    exact needDef_slotAfter_nested rd _ d' hdata hsub.1 hsub.2 (by simp)
  case _ =>
    -- nested branch, recursive call succeeds, then the rest of the schema
    intro f k rd rest ctx pd v0 v hguard element hli stepEq el1 hstepEq stepTe el2 v2 hstepTe
      stepCl el3 hstepCl hdata sub d' sub_eq v3 pd' res rest' rest_eq ih_sub ih_rest hctx
    have hrest := ih_rest hctx
    rw [rest_eq] at hrest
    simp only [pd', v3] at rest_eq ih_rest
    simp only [stepCl, stepTe, stepEq, element, v, v0] at hstepEq hstepTe hstepCl
    simp only [v, v0] at hli
    simp only [handleS]
    simp [hctx, hli] at hstepEq hstepTe hstepCl rest_eq ⊢
    have hv2 : v2.data = (normalizeOpt rd).data ∧ v2.listItem = (normalizeOpt rd).listItem := by
      have hT := hstepTe
      rcases ht : (normalizeOpt rd).texteq with _ | n
      · rw [ht] at hT
        simp at hT
        rw [← hT.2]
        exact ⟨rfl, rfl⟩
      · rw [ht] at hT
        rcases hc : elemContents doc el1 with e2 | children
        · rw [hc] at hT
          simp at hT
        · rw [hc] at hT
          simp at hT
          rw [← hT.2]
          exact ⟨rfl, rfl⟩
    have h1 : el1.isDollar = false := by
      have hE := hstepEq
      rcases hv : (normalizeOpt rd).eq with _ | n
      · rw [hv] at hE
        simp at hE
        rw [← hE]
        split
        · simp [Elem.isDollar]
        · exact hctx
      · rw [hv] at hE
        simp at hE
        exact elemEq_ok_nd hE
    have h2 : el2.isDollar = false := by
      have hT := hstepTe
      rcases ht : (normalizeOpt rd).texteq with _ | n
      · rw [ht] at hT
        simp at hT
        rw [← hT.1]
        exact h1
      · rw [ht] at hT
        rcases hc : elemContents doc el1 with e2 | children
        · rw [hc] at hT
          simp at hT
        · rw [hc] at hT
          simp at hT
          rw [← hT.1]
          cases hf : findTextChild doc children n <;> simp [hf, Elem.isDollar]
    have h3 : el3.isDollar = false := by
      have hC := hstepCl
      by_cases hcl : v2.closest = ""
      · simp [hcl] at hC
        rw [← hC]
        exact h2
      · simp [hcl] at hC
        exact elemClosest_ok_nd hC
    have hsub := ih_sub h3
    rw [sub_eq] at hsub
    rw [hv2.1] at hsub
    simp at hdata
    rw [hv2.1] at hdata
    rw [hv2.1] at sub_eq
    simp only [hstepEq]
    simp only [hstepTe]
    simp only [hstepCl]
    simp [hdata, hv2.1, sub_eq, rest_eq]
    refine ⟨by simp [slotSig, defSig_slotAfter, hrest.1], ?_⟩
    simp only [needSchema]
    congr 1
    · congr 1
      exact needDef_slotAfter_nested rd _ d' hdata hsub.1 hsub.2 (by simp)
    · exact hrest.2
  case _ =>
    -- scalar branch, accessor throws
    intro f k rd rest ctx pd v0 v hguard element hli stepEq el1 hstepEq stepTe el2 v2 hstepTe
      stepCl el3 hstepCl hdata e how_eq hctx
    simp only [stepCl, stepTe, stepEq, element, v, v0] at hstepEq hstepTe hstepCl
    simp only [v, v0] at hli
    simp only [handleS]
    simp [hctx, hli] at hstepEq hstepTe hstepCl ⊢
    have hv2 : v2.data = (normalizeOpt rd).data ∧ v2.listItem = (normalizeOpt rd).listItem := by
      have hT := hstepTe
      rcases ht : (normalizeOpt rd).texteq with _ | n
      · rw [ht] at hT
        simp at hT
        rw [← hT.2]
        exact ⟨rfl, rfl⟩
      · rw [ht] at hT
        rcases hc : elemContents doc el1 with e2 | children
        · rw [hc] at hT
          simp at hT
        · rw [hc] at hT
          simp at hT
          rw [← hT.2]
          exact ⟨rfl, rfl⟩
    simp only [hstepEq]
    simp only [hstepTe]
    simp only [hstepCl]
    simp at hdata
    simp [hdata, how_eq]
    refine ⟨by simp [slotSig, defSig_slotAfter], ?_⟩
    simp only [needSchema]
    congr 1
    congr 1
    exact needDef_slotAfter_same rd _ hv2.1 hv2.2
  case _ =>
    -- scalar branch, value stored, then the rest of the schema
    intro f k rd rest ctx pd v0 v hguard element hli stepEq el1 hstepEq stepTe el2 v2 hstepTe
      stepCl el3 hstepCl hdata key0 how_eq key1 key2 key3 pd' res rest' rest_eq ih_rest hctx
    have hrest := ih_rest hctx
    rw [rest_eq] at hrest
    simp only [pd', key3, key2, key1] at rest_eq
    simp only [stepCl, stepTe, stepEq, element, v, v0] at hstepEq hstepTe hstepCl
    simp only [v, v0] at hli
    simp only [handleS]
    simp [hctx, hli] at hstepEq hstepTe hstepCl rest_eq ⊢
    have hv2 : v2.data = (normalizeOpt rd).data ∧ v2.listItem = (normalizeOpt rd).listItem := by
      have hT := hstepTe
      rcases ht : (normalizeOpt rd).texteq with _ | n
      · rw [ht] at hT
        simp at hT
        rw [← hT.2]
        exact ⟨rfl, rfl⟩
      · rw [ht] at hT
        rcases hc : elemContents doc el1 with e2 | children
        · rw [hc] at hT
          simp at hT
        · rw [hc] at hT
          simp at hT
          rw [← hT.2]
          exact ⟨rfl, rfl⟩
    simp only [hstepEq]
    simp only [hstepTe]
    simp only [hstepCl]
    simp at hdata
    simp [hdata, how_eq, rest_eq]
    refine ⟨by simp [slotSig, defSig_slotAfter, hrest.1], ?_⟩
    simp only [needSchema]
    congr 1
    · congr 1
      exact needDef_slotAfter_same rd _ hv2.1 hv2.2
    · exact hrest.2
  case _ =>
    -- items loop: no items left
    intro x d x1
    simp [handleItems]
  case _ =>
    -- items loop: the item extraction throws
    intro f d it restIts conv e d' sub_eq ih
    have h := ih rfl
    rw [sub_eq] at h
    simp only [handleItems]
    simp [sub_eq]
    exact h
  case _ =>
    -- items loop: item ok, recursion on the remaining items throws
    intro f d it restIts conv sub d' sub_eq e d2 rest_eq ih1 ih2
    have h1 := ih1 rfl
    rw [sub_eq] at h1
    rw [rest_eq] at ih2
    simp only [handleItems]
    simp [sub_eq, rest_eq]
    exact ⟨ih2.1.trans h1.1, ih2.2.trans h1.2⟩
  case _ =>
    -- items loop: everything succeeds
    intro f d it restIts conv sub d' sub_eq outs d2 rest_eq ih1 ih2
    have h1 := ih1 rfl
    rw [sub_eq] at h1
    rw [rest_eq] at ih2
    simp only [handleItems]
    simp [sub_eq, rest_eq]
    exact ⟨ih2.1.trans h1.1, ih2.2.trans h1.2⟩

theorem handleS_pres (doc : DNode) (f : Nat) (s : Schema) (ctx : Elem) (pd : PageData)
    (hctx : ctx.isDollar = false) :
    slotSig (handleS doc f s ctx pd).2 = slotSig s ∧
    needSchema (handleS doc f s ctx pd).2 = needSchema s :=
  (pres_all doc).1 f s ctx pd hctx

theorem handleItems_pres (doc : DNode) (f : Nat) (d : Schema) (its : List Path)
    (conv : Option Convert) :
    slotSig (handleItems doc f d its conv).2 = slotSig d ∧
    needSchema (handleItems doc f d its conv).2 = needSchema d :=
  (pres_all doc).2 f d its conv

/-! ## Facts about the semantic normal form -/

theorem canonDef_objDef (k : String) (sel li : Option String) (dat : Option Schema)
    (how : Option How) (attr : Option String) (tv : Option Bool) (cl : Option String)
    (eqv te : Option Nat) (cv : Option Convert) (nm : Option String) :
    canonDef k (.objDef sel li dat how attr tv cl eqv te cv nm) =
    .objDef (normalizeOpt (.objDef sel li dat how attr tv cl eqv te cv nm)).selector
      (normalizeOpt (.objDef sel li dat how attr tv cl eqv te cv nm)).listItem
      (some (if truthyS li && (dat.getD .nil).isNil then synthNorm
             else semNorm (dat.getD .nil)))
      (some (canonHow (normalizeOpt (.objDef sel li dat how attr tv cl eqv te cv nm))))
      (normalizeOpt (.objDef sel li dat how attr tv cl eqv te cv nm)).attr
      (some (normalizeOpt (.objDef sel li dat how attr tv cl eqv te cv nm)).trimValue)
      (some (normalizeOpt (.objDef sel li dat how attr tv cl eqv te cv nm)).closest)
      (normalizeOpt (.objDef sel li dat how attr tv cl eqv te cv nm)).eq
      (normalizeOpt (.objDef sel li dat how attr tv cl eqv te cv nm)).texteq
      (normalizeOpt (.objDef sel li dat how attr tv cl eqv te cv nm)).convert
      (some k) := by
  cases dat with
  | none => simp [canonDef, semNorm, Schema.isNil]
  | some d => simp [canonDef]

theorem semNorm_synth : semNorm synthSchema = synthNorm := rfl

theorem semNorm_isNil (d : Schema) : (semNorm d).isNil = d.isNil := by
  cases d <;> rfl

theorem canonHow_norm (rd : RawDef) :
    (if (normalizeOpt rd).texteq.isSome && !truthyS (normalizeOpt rd).listItem then How.textData
     else renormHow (normalizeOpt rd).how (normalizeOpt rd).attr) =
    canonHow (normalizeOpt rd) := by
  rw [canonHow]
  split
  · rfl
  · exact renormHow_normalizeOpt rd

theorem canonDef_toRaw (k : String) (rd : RawDef) (w : FDesc)
    (hsel : w.selector = (normalizeOpt rd).selector)
    (hli : w.listItem = (normalizeOpt rd).listItem)
    (hattr : w.attr = (normalizeOpt rd).attr)
    (htv : w.trimValue = (normalizeOpt rd).trimValue)
    (hcl : w.closest = (normalizeOpt rd).closest)
    (heq : w.eq = (normalizeOpt rd).eq)
    (hte : w.texteq = (normalizeOpt rd).texteq)
    (hcv : w.convert = (normalizeOpt rd).convert)
    (hdat : (if truthyS w.listItem && w.data.isNil then synthNorm else semNorm w.data) =
      (if truthyS (normalizeOpt rd).listItem && (normalizeOpt rd).data.isNil then synthNorm
       else semNorm (normalizeOpt rd).data))
    (hhow : (if w.texteq.isSome && !truthyS w.listItem then How.textData
             else renormHow w.how w.attr) = canonHow (normalizeOpt rd))
    (hobj : defSig rd = none) :
    canonDef k (FDesc.toRaw w) = canonDef k rd := by
  cases rd with
  | strDef s => simp [defSig] at hobj
  | objDef sel li dat how attr tv cl eqv te cv nm =>
    rw [FDesc.toRaw, canonDef_objDef, canonDef_objDef, ← FDesc.toRaw, normalizeOpt_toRaw]
    have hrd : (normalizeOpt (.objDef sel li dat how attr tv cl eqv te cv nm)).listItem = li := by
      simp [normalizeOpt]
    have hdat2 : (normalizeOpt (.objDef sel li dat how attr tv cl eqv te cv nm)).data =
        dat.getD .nil := by
      simp [normalizeOpt]
    rw [hrd] at hli hdat
    rw [hdat2] at hdat
    simp only [Option.getD_some]
    rw [show canonHow { w with how := renormHow w.how w.attr } =
          (if w.texteq.isSome && !truthyS w.listItem then How.textData
           else renormHow w.how w.attr) from by simp [canonHow]]
    rw [hdat, hhow, hsel, hli, hattr, htv, hcl, heq, hte, hcv, hrd]

/-- Either the plainly normalized descriptor (with the engine's `name`), or,
when a `texteq` index is present on a non-list field, the same with the
installed text-node reader: the two shapes a descriptor can have when the
engine writes it back. -/
def slotShape (k : String) (rd : RawDef) (w : FDesc) : Prop :=
  w = { normalizeOpt rd with name := some k } ∨
    ((normalizeOpt rd).texteq.isSome = true ∧ truthyS (normalizeOpt rd).listItem = false ∧
     w = { normalizeOpt rd with name := some k, how := How.textData })

theorem canonDef_slotAfter_keep (k : String) (rd : RawDef) (w : FDesc)
    (hw : slotShape k rd w) :
    canonDef k (slotAfter rd w) = canonDef k rd := by
  cases rd with
  | strDef s => rfl
  | objDef sel li dat how attr tv cl eqv te cv nm =>
    rcases hw with hw | ⟨hsome, hlif, hw⟩
    · subst hw
      refine canonDef_toRaw _ _ _ rfl rfl rfl rfl rfl rfl rfl rfl rfl ?_ rfl
      exact canonHow_norm _
    · subst hw
      refine canonDef_toRaw _ _ _ rfl rfl rfl rfl rfl rfl rfl rfl rfl ?_ rfl
      show (if ((normalizeOpt (.objDef sel li dat how attr tv cl eqv te cv nm)).texteq.isSome &&
          !truthyS (normalizeOpt (.objDef sel li dat how attr tv cl eqv te cv nm)).listItem) = true
          then How.textData
          else renormHow How.textData
            (normalizeOpt (.objDef sel li dat how attr tv cl eqv te cv nm)).attr) =
        canonHow (normalizeOpt (.objDef sel li dat how attr tv cl eqv te cv nm))
      rw [canonHow]
      simp [hsome, hlif]

theorem canonDef_slotAfter_data (k : String) (rd : RawDef) (w : FDesc) (d' : Schema)
    (hw : slotShape k rd w)
    (hdat : (if truthyS (normalizeOpt rd).listItem && d'.isNil then synthNorm else semNorm d') =
      (if truthyS (normalizeOpt rd).listItem && (normalizeOpt rd).data.isNil then synthNorm
       else semNorm (normalizeOpt rd).data)) :
    canonDef k (slotAfter rd { w with data := d' }) = canonDef k rd := by
  cases rd with
  | strDef s => rfl
  | objDef sel li dat how attr tv cl eqv te cv nm =>
    rcases hw with hw | ⟨hsome, hlif, hw⟩
    · subst hw
      refine canonDef_toRaw _ _ _ rfl rfl rfl rfl rfl rfl rfl rfl hdat ?_ rfl
      exact canonHow_norm _
    · subst hw
      refine canonDef_toRaw _ _ _ rfl rfl rfl rfl rfl rfl rfl rfl hdat ?_ rfl
      show (if ((normalizeOpt (.objDef sel li dat how attr tv cl eqv te cv nm)).texteq.isSome &&
          !truthyS (normalizeOpt (.objDef sel li dat how attr tv cl eqv te cv nm)).listItem) = true
          then How.textData
          else renormHow How.textData
            (normalizeOpt (.objDef sel li dat how attr tv cl eqv te cv nm)).attr) =
        canonHow (normalizeOpt (.objDef sel li dat how attr tv cl eqv te cv nm))
      rw [canonHow]
      simp [hsome, hlif]

/-! ## The schema mutation preserves the semantic normal form -/

set_option maxHeartbeats 4000000 in
theorem mutNorm_all (doc : DNode) :
    (∀ (f : Nat) (s : Schema) (ctx : Elem) (pd : PageData), ctx.isDollar = false →
      semNorm (handleS doc f s ctx pd).2 = semNorm s) ∧
    (∀ (f : Nat) (d : Schema) (its : List Path) (conv : Option Convert),
      semNorm (handleItems doc f d its conv).2 = semNorm d) := by
  refine handleS.mutual_induct doc
    (fun f s ctx pd => ctx.isDollar = false → semNorm (handleS doc f s ctx pd).2 = semNorm s)
    (fun f d its conv => semNorm (handleItems doc f d its conv).2 = semNorm d)
    ?_ ?_ ?_ ?_ ?_ ?_ ?_ ?_ ?_ ?_ ?_ ?_ ?_ ?_ ?_ ?_
  case _ =>
    intro s x x1 _
    simp [handleS]
  case _ =>
    intro n x pd _
    simp [handleS]
  case _ =>
    intro f k rd rest ctx pd v0 v hguard hctx
    rw [hctx] at hguard
    simp at hguard
  case _ =>
    -- list branch, handleItems errors
    intro f k rd rest ctx pd v0 v hguard hli items data1 e d' items_eq ih hctx
    rw [items_eq] at ih
    have hpres := (handleItems_pres doc f data1 items v.convert).1
    rw [items_eq] at hpres
    have hnil := slotSig_isNil hpres
    simp only [data1, items, v, v0] at items_eq ih hnil
    simp only [v, v0] at hli
    simp only [handleS]
    simp [hctx, hli] at items_eq ⊢
    rw [items_eq]
    simp only [semNorm]
    congr 1
    apply canonDef_slotAfter_data _ _ _ _ (Or.inl rfl)
    by_cases hn : (normalizeOpt rd).data.isNil = true
    · simp [hn] at ih hnil
      rw [semNorm_synth] at ih
      simp [synthSchema, Schema.isNil] at hnil
      simp [hli, hn, hnil, ih]
    · simp [hn] at ih hnil
      simp [hli, hn, hnil, ih]
  case _ =>
    -- list branch, handleItems ok, then the rest of the schema
    intro f k rd rest ctx pd v0 v hguard hli items data1 outs d' items_eq v' pd' res rest'
      rest_eq ih_items ih_rest hctx
    have hrest := ih_rest hctx
    rw [rest_eq] at hrest
    rw [items_eq] at ih_items
    have hpres := (handleItems_pres doc f data1 items v.convert).1
    rw [items_eq] at hpres
    have hnil := slotSig_isNil hpres
    simp only [pd', v', data1, items, v, v0] at items_eq rest_eq ih_items hnil
    simp only [v, v0] at hli
    simp only [handleS]
    simp [hctx, hli] at items_eq rest_eq ⊢
    rw [items_eq]
    simp only [rest_eq]
    simp only [semNorm]
    congr 1
    apply canonDef_slotAfter_data _ _ _ _ (Or.inl rfl)
    by_cases hn : (normalizeOpt rd).data.isNil = true
    · simp [hn] at ih_items hnil
      rw [semNorm_synth] at ih_items
      simp [synthSchema, Schema.isNil] at hnil
      simp [hli, hn, hnil, ih_items]
    · simp [hn] at ih_items hnil
      simp [hli, hn, hnil, ih_items]
  case _ =>
    -- scalar branch, eq step throws
    intro f k rd rest ctx pd v0 v hguard element hli stepEq e hstep hctx
    simp only [stepEq, element, v, v0] at hstep
    simp only [v, v0] at hli
    simp only [handleS]
    simp [hctx, hli] at hstep ⊢
    rcases hv : (normalizeOpt rd).eq with _ | n
    · rw [hv] at hstep
      simp at hstep
    · rw [hv] at hstep
      simp at hstep
      simp only [hv, hstep]
      simp only [semNorm]
      congr 1
      refine canonDef_slotAfter_keep _ _ _ (Or.inl ?_)
      rw [← hv]
  case _ =>
    -- scalar branch, texteq contents step throws
    intro f k rd rest ctx pd v0 v hguard element hli stepEq el1 hstepEq stepTe e hstepTe hctx
    simp only [stepTe, stepEq, element, v, v0] at hstepEq hstepTe
    simp only [v, v0] at hli
    simp only [handleS]
    simp [hctx, hli] at hstepEq hstepTe ⊢
    rw [hstepEq]
    rcases ht : (normalizeOpt rd).texteq with _ | n
    · rw [ht] at hstepTe
      simp at hstepTe
    · rw [ht] at hstepTe
      simp only [ht]
      rcases hc : elemContents doc el1 with e2 | children <;> rw [hc] at hstepTe
      · simp at hstepTe
        simp only [semNorm]
        congr 1
        refine canonDef_slotAfter_keep _ _ _ (Or.inl ?_)
        rw [← ht]
      · simp at hstepTe
  case _ =>
    -- scalar branch, closest step throws
    intro f k rd rest ctx pd v0 v hguard element hli stepEq el1 hstepEq stepTe el2 v2 hstepTe
      stepCl e hstepCl hctx
    simp only [stepCl, stepTe, stepEq, element, v, v0] at hstepEq hstepTe hstepCl
    simp only [v, v0] at hli
    simp [hctx, hli] at hstepEq hstepTe hstepCl ⊢
    have hshape : slotShape k rd v2 := by
      have hT := hstepTe
      rcases ht : (normalizeOpt rd).texteq with _ | n
      · rw [ht] at hT
        simp at hT
        refine Or.inl ?_
        rw [← hT.2, ← ht]
      · rw [ht] at hT
        rcases hc : elemContents doc el1 with e2 | children
        · rw [hc] at hT
          simp at hT
        · rw [hc] at hT
          simp at hT
          refine Or.inr ⟨by rw [ht]; rfl, by simpa using hli, ?_⟩
          rw [← hT.2, ← ht]
    simp only [handleS]
    simp [hctx, hli]
    simp only [hstepEq]
    simp only [hstepTe]
    by_cases hcl : v2.closest = ""
    · simp [hcl] at hstepCl
    · simp [hcl] at hstepCl ⊢
      rw [hstepCl]
      simp only [semNorm]
      congr 1
      exact canonDef_slotAfter_keep _ _ _ hshape
  case _ =>
    -- nested branch, recursive call throws
    intro f k rd rest ctx pd v0 v hguard element hli stepEq el1 hstepEq stepTe el2 v2 hstepTe
      stepCl el3 hstepCl hdata e d' sub_eq ih hctx
    simp only [stepCl, stepTe, stepEq, element, v, v0] at hstepEq hstepTe hstepCl
    simp only [v, v0] at hli
    simp [hctx, hli] at hstepEq hstepTe hstepCl ⊢
    have hshape : slotShape k rd v2 := by
      have hT := hstepTe
      rcases ht : (normalizeOpt rd).texteq with _ | n
      · rw [ht] at hT
        simp at hT
        refine Or.inl ?_
        rw [← hT.2, ← ht]
      · rw [ht] at hT
        rcases hc : elemContents doc el1 with e2 | children
        · rw [hc] at hT
          simp at hT
        · rw [hc] at hT
          simp at hT
          refine Or.inr ⟨by rw [ht]; rfl, by simpa using hli, ?_⟩
          rw [← hT.2, ← ht]
    have hv2d : v2.data = (normalizeOpt rd).data := by
      rcases hshape with h | ⟨_, _, h⟩ <;> rw [h]
    have h1 : el1.isDollar = false := by
      have hE := hstepEq
      rcases hv : (normalizeOpt rd).eq with _ | n
      · rw [hv] at hE
        simp at hE
        rw [← hE]
        split
        · simp [Elem.isDollar]
        · exact hctx
      · rw [hv] at hE
        simp at hE
        exact elemEq_ok_nd hE
    have h2 : el2.isDollar = false := by
      have hT := hstepTe
      rcases ht : (normalizeOpt rd).texteq with _ | n
      · rw [ht] at hT
        simp at hT
        rw [← hT.1]
        exact h1
      · rw [ht] at hT
        rcases hc : elemContents doc el1 with e2 | children
        · rw [hc] at hT
          simp at hT
        · rw [hc] at hT
          simp at hT
          rw [← hT.1]
          cases hf : findTextChild doc children n <;> simp [hf, Elem.isDollar]
    have h3 : el3.isDollar = false := by
      have hC := hstepCl
      by_cases hcl : v2.closest = ""
      · simp [hcl] at hC
        rw [← hC]
        exact h2
      · simp [hcl] at hC
        exact elemClosest_ok_nd hC
    have hsub := ih h3
    rw [sub_eq] at hsub
    rw [hv2d] at hsub
    simp at hdata
    rw [hv2d] at hdata
    rw [hv2d] at sub_eq
    simp only [handleS]
    simp [hctx, hli]
    simp only [hstepEq]
    simp only [hstepTe]
    simp only [hstepCl]
    simp [hdata, hv2d, sub_eq]
    simp only [semNorm]
    congr 1
    apply canonDef_slotAfter_data _ _ _ _ hshape
    have hlif : truthyS (normalizeOpt rd).listItem = false := by simpa using hli
    simp [hlif, hsub]
  case _ =>
    -- nested branch, recursive call succeeds, then the rest of the schema
    intro f k rd rest ctx pd v0 v hguard element hli stepEq el1 hstepEq stepTe el2 v2 hstepTe
      stepCl el3 hstepCl hdata sub d' sub_eq v3 pd' res rest' rest_eq ih_sub ih_rest hctx
    have hrest := ih_rest hctx
    rw [rest_eq] at hrest
    simp only [pd', v3] at rest_eq ih_rest
    simp only [stepCl, stepTe, stepEq, element, v, v0] at hstepEq hstepTe hstepCl
    simp only [v, v0] at hli
    simp [hctx, hli] at hstepEq hstepTe hstepCl rest_eq ⊢
    have hshape : slotShape k rd v2 := by
      have hT := hstepTe
      rcases ht : (normalizeOpt rd).texteq with _ | n
      · rw [ht] at hT
        simp at hT
        refine Or.inl ?_
        rw [← hT.2, ← ht]
      · rw [ht] at hT
        rcases hc : elemContents doc el1 with e2 | children
        · rw [hc] at hT
          simp at hT
        · rw [hc] at hT
          simp at hT
          refine Or.inr ⟨by rw [ht]; rfl, by simpa using hli, ?_⟩
          rw [← hT.2, ← ht]
    have hv2d : v2.data = (normalizeOpt rd).data := by
      rcases hshape with h | ⟨_, _, h⟩ <;> rw [h]
    have h1 : el1.isDollar = false := by
      have hE := hstepEq
      rcases hv : (normalizeOpt rd).eq with _ | n
      · rw [hv] at hE
        simp at hE
        rw [← hE]
        split
        · simp [Elem.isDollar]
        · exact hctx
      · rw [hv] at hE
        simp at hE
        exact elemEq_ok_nd hE
    have h2 : el2.isDollar = false := by
      have hT := hstepTe
      rcases ht : (normalizeOpt rd).texteq with _ | n
      · rw [ht] at hT
        simp at hT
        rw [← hT.1]
        exact h1
      · rw [ht] at hT
        rcases hc : elemContents doc el1 with e2 | children
        · rw [hc] at hT
          simp at hT
        · rw [hc] at hT
          simp at hT
          rw [← hT.1]
          cases hf : findTextChild doc children n <;> simp [hf, Elem.isDollar]
    have h3 : el3.isDollar = false := by
      have hC := hstepCl
      by_cases hcl : v2.closest = ""
      · simp [hcl] at hC
        rw [← hC]
        exact h2
      · simp [hcl] at hC
        exact elemClosest_ok_nd hC
    have hsub := ih_sub h3
    rw [sub_eq] at hsub
    rw [hv2d] at hsub
    simp at hdata
    rw [hv2d] at hdata
    rw [hv2d] at sub_eq
    simp only [handleS]
    simp [hctx, hli]
    simp only [hstepEq]
    simp only [hstepTe]
    simp only [hstepCl]
    simp [hdata, hv2d, sub_eq, rest_eq]
    simp only [semNorm]
    congr 1
    apply canonDef_slotAfter_data _ _ _ _ hshape
    have hlif : truthyS (normalizeOpt rd).listItem = false := by simpa using hli
    simp [hlif, hsub]
  case _ =>
    -- scalar branch, accessor throws
    intro f k rd rest ctx pd v0 v hguard element hli stepEq el1 hstepEq stepTe el2 v2 hstepTe
      stepCl el3 hstepCl hdata e how_eq hctx
    simp only [stepCl, stepTe, stepEq, element, v, v0] at hstepEq hstepTe hstepCl
    simp only [v, v0] at hli
    simp [hctx, hli] at hstepEq hstepTe hstepCl ⊢
    have hshape : slotShape k rd v2 := by
      have hT := hstepTe
      rcases ht : (normalizeOpt rd).texteq with _ | n
      · rw [ht] at hT
        simp at hT
        refine Or.inl ?_
        rw [← hT.2, ← ht]
      · rw [ht] at hT
        rcases hc : elemContents doc el1 with e2 | children
        · rw [hc] at hT
          simp at hT
        · rw [hc] at hT
          simp at hT
          refine Or.inr ⟨by rw [ht]; rfl, by simpa using hli, ?_⟩
          rw [← hT.2, ← ht]
    simp only [handleS]
    simp [hctx, hli]
    simp only [hstepEq]
    simp only [hstepTe]
    simp only [hstepCl]
    simp at hdata
    simp [hdata, how_eq]
    simp only [semNorm]
    congr 1
    exact canonDef_slotAfter_keep _ _ _ hshape
  case _ =>
    -- scalar branch, value stored, then the rest of the schema
    intro f k rd rest ctx pd v0 v hguard element hli stepEq el1 hstepEq stepTe el2 v2 hstepTe
      stepCl el3 hstepCl hdata key0 how_eq key1 key2 key3 pd' res rest' rest_eq ih_rest hctx
    have hrest := ih_rest hctx
    rw [rest_eq] at hrest
    simp only [pd', key3, key2, key1] at rest_eq
    simp only [stepCl, stepTe, stepEq, element, v, v0] at hstepEq hstepTe hstepCl
    simp only [v, v0] at hli
    simp [hctx, hli] at hstepEq hstepTe hstepCl rest_eq ⊢
    have hshape : slotShape k rd v2 := by
      have hT := hstepTe
      rcases ht : (normalizeOpt rd).texteq with _ | n
      · rw [ht] at hT
        simp at hT
        refine Or.inl ?_
        rw [← hT.2, ← ht]
      · rw [ht] at hT
        rcases hc : elemContents doc el1 with e2 | children
        · rw [hc] at hT
          simp at hT
        · rw [hc] at hT
          simp at hT
          refine Or.inr ⟨by rw [ht]; rfl, by simpa using hli, ?_⟩
          rw [← hT.2, ← ht]
    simp only [handleS]
    simp [hctx, hli]
    simp only [hstepEq]
    simp only [hstepTe]
    simp only [hstepCl]
    simp at hdata
    simp [hdata, how_eq, rest_eq]
    simp only [semNorm]
    congr 1
    exact canonDef_slotAfter_keep _ _ _ hshape
  case _ =>
    -- items loop: no items left
    intro x d x1
    simp [handleItems]
  case _ =>
    -- items loop: the item extraction throws
    intro f d it restIts conv e d' sub_eq ih
    have h := ih rfl
    rw [sub_eq] at h
    simp only [handleItems]
    simp [sub_eq]
    exact h
  case _ =>
    -- items loop: item ok, recursion on the remaining items throws
    intro f d it restIts conv sub d' sub_eq e d2 rest_eq ih1 ih2
    have h1 := ih1 rfl
    rw [sub_eq] at h1
    rw [rest_eq] at ih2
    simp only [handleItems]
    simp [sub_eq, rest_eq]
    exact ih2.trans h1
  case _ =>
    -- items loop: everything succeeds
    intro f d it restIts conv sub d' sub_eq outs d2 rest_eq ih1 ih2
    have h1 := ih1 rfl
    rw [sub_eq] at h1
    rw [rest_eq] at ih2
    simp only [handleItems]
    simp [sub_eq, rest_eq]
    exact ih2.trans h1

theorem handleS_mutNorm (doc : DNode) (f : Nat) (s : Schema) (ctx : Elem) (pd : PageData)
    (hctx : ctx.isDollar = false) :
    semNorm (handleS doc f s ctx pd).2 = semNorm s :=
  (mutNorm_all doc).1 f s ctx pd hctx

theorem handleItems_mutNorm (doc : DNode) (f : Nat) (d : Schema) (its : List Path)
    (conv : Option Convert) :
    semNorm (handleItems doc f d its conv).2 = semNorm d :=
  (mutNorm_all doc).2 f d its conv

/-! ## Inverting the normal form: two schemas with the same normal form have
pointwise equivalent descriptors -/

theorem semNorm_nil_inv {s : Schema} (h : semNorm s = Schema.nil) : s = Schema.nil := by
  cases s with
  | nil => rfl
  | cons k rd rest => simp [semNorm] at h

theorem semNorm_cons_inv {s2 : Schema} {k : String} {c : RawDef} {r : Schema}
    (h : semNorm s2 = Schema.cons k c r) :
    ∃ rd2 rest2, s2 = Schema.cons k rd2 rest2 ∧ canonDef k rd2 = c ∧ semNorm rest2 = r := by
  cases s2 with
  | nil => simp [semNorm] at h
  | cons k2 rd2 rest2 =>
    simp [semNorm] at h
    obtain ⟨hk, hc, hr⟩ := h
    subst hk
    exact ⟨rd2, rest2, rfl, hc, hr⟩

/-- `canonDef` on an options object, phrased entirely through the normalized
descriptor. -/
theorem canonDef_normProj (k : String) (sel li : Option String) (dat : Option Schema)
    (how : Option How) (attr : Option String) (tv : Option Bool) (cl : Option String)
    (eqv te : Option Nat) (cv : Option Convert) (nm : Option String) :
    canonDef k (.objDef sel li dat how attr tv cl eqv te cv nm) =
    .objDef (normalizeOpt (.objDef sel li dat how attr tv cl eqv te cv nm)).selector
      (normalizeOpt (.objDef sel li dat how attr tv cl eqv te cv nm)).listItem
      (some (if truthyS (normalizeOpt (.objDef sel li dat how attr tv cl eqv te cv nm)).listItem
               && (normalizeOpt (.objDef sel li dat how attr tv cl eqv te cv nm)).data.isNil
             then synthNorm
             else semNorm (normalizeOpt (.objDef sel li dat how attr tv cl eqv te cv nm)).data))
      (some (canonHow (normalizeOpt (.objDef sel li dat how attr tv cl eqv te cv nm))))
      (normalizeOpt (.objDef sel li dat how attr tv cl eqv te cv nm)).attr
      (some (normalizeOpt (.objDef sel li dat how attr tv cl eqv te cv nm)).trimValue)
      (some (normalizeOpt (.objDef sel li dat how attr tv cl eqv te cv nm)).closest)
      (normalizeOpt (.objDef sel li dat how attr tv cl eqv te cv nm)).eq
      (normalizeOpt (.objDef sel li dat how attr tv cl eqv te cv nm)).texteq
      (normalizeOpt (.objDef sel li dat how attr tv cl eqv te cv nm)).convert
      (some k) := by
  rw [canonDef_objDef]
  simp [normalizeOpt]

/-- What must agree between two normalized descriptors for them to have the
same canonical slot: every component the engine can observe. -/
def descEquiv (w2 w1 : FDesc) : Prop :=
  w2.selector = w1.selector ∧ w2.listItem = w1.listItem ∧
  (if truthyS w2.listItem && w2.data.isNil then synthNorm else semNorm w2.data) =
    (if truthyS w1.listItem && w1.data.isNil then synthNorm else semNorm w1.data) ∧
  canonHow w2 = canonHow w1 ∧ w2.attr = w1.attr ∧ w2.trimValue = w1.trimValue ∧
  w2.closest = w1.closest ∧ w2.eq = w1.eq ∧ w2.texteq = w1.texteq ∧ w2.convert = w1.convert

theorem canonDef_equiv {k : String} {rd2 rd : RawDef}
    (h : canonDef k rd2 = canonDef k rd) :
    descEquiv (normalizeOpt rd2) (normalizeOpt rd) := by
  cases rd with
  | strDef s1 =>
    cases rd2 with
    | strDef s2 =>
      simp [canonDef] at h
      rw [h]
      exact ⟨rfl, rfl, rfl, rfl, rfl, rfl, rfl, rfl, rfl, rfl⟩
    | objDef sel li dat how attr tv cl eqv te cv nm =>
      rw [canonDef_normProj] at h
      simp [canonDef] at h
  | objDef sel li dat how attr tv cl eqv te cv nm =>
    cases rd2 with
    | strDef s2 =>
      rw [canonDef_normProj] at h
      simp [canonDef] at h
    | objDef sel2 li2 dat2 how2 attr2 tv2 cl2 eqv2 te2 cv2 nm2 =>
      rw [canonDef_normProj, canonDef_normProj] at h
      simp only [RawDef.objDef.injEq, Option.some.injEq] at h
      obtain ⟨h1, h2, h3, h4, h5, h6, h7, h8, h9, h10, -⟩ := h
      exact ⟨h1, h2, h3, h4, h5, h6, h7, h8, h9, h10⟩

/-! ## Equal normal forms extract equal results -/

set_option maxHeartbeats 4000000 in
theorem simEq_all (doc : DNode) :
    (∀ (f : Nat) (s : Schema) (ctx : Elem) (pd : PageData), ctx.isDollar = false →
      ∀ s2 : Schema, semNorm s = semNorm s2 →
      (handleS doc f s ctx pd).1 = (handleS doc f s2 ctx pd).1) ∧
    (∀ (f : Nat) (d : Schema) (its : List Path) (conv : Option Convert),
      ∀ d2 : Schema, semNorm d = semNorm d2 →
      (handleItems doc f d its conv).1 = (handleItems doc f d2 its conv).1) := by
  refine handleS.mutual_induct doc
    (fun f s ctx pd => ctx.isDollar = false → ∀ s2 : Schema, semNorm s = semNorm s2 →
      (handleS doc f s ctx pd).1 = (handleS doc f s2 ctx pd).1)
    (fun f d its conv => ∀ d2 : Schema, semNorm d = semNorm d2 →
      (handleItems doc f d its conv).1 = (handleItems doc f d2 its conv).1)
    ?_ ?_ ?_ ?_ ?_ ?_ ?_ ?_ ?_ ?_ ?_ ?_ ?_ ?_ ?_ ?_
  case _ =>
    intro s x x1 _ s2 _
    simp [handleS]
  case _ =>
    intro n x pd _ s2 hsem
    have h2 : semNorm s2 = Schema.nil := by
      rw [← hsem]
      simp [semNorm]
    rw [semNorm_nil_inv h2]
  case _ =>
    intro f k rd rest ctx pd v0 v hguard hctx s2 hsem
    rw [hctx] at hguard
    simp at hguard
  case _ =>
    -- list branch, handleItems errors
    intro f k rd rest ctx pd v0 v hguard hli items data1 e d' items_eq ih hctx s2 hsem
    have h2 : semNorm s2 = Schema.cons k (canonDef k rd) (semNorm rest) := by
      rw [← hsem]
      simp [semNorm]
    obtain ⟨rd2, rest2, rfl, hcd, hrest2⟩ := semNorm_cons_inv h2
    obtain ⟨hsel, hli2, hdat, hhow, hattr, htv, hcl2, heq2, hte2, hcv2⟩ := canonDef_equiv hcd
    rw [items_eq] at ih
    simp only [data1, items, v, v0] at items_eq ih
    simp only [v, v0] at hli
    rw [hli2] at hdat
    simp only [handleS]
    simp [hctx, hli, hli2, hsel, hattr, htv, hcl2, heq2, hte2, hcv2] at items_eq ih ⊢
    have hd1 : semNorm (if (normalizeOpt rd).data.isNil = true then synthSchema
          else (normalizeOpt rd).data) =
        semNorm (if (normalizeOpt rd2).data.isNil = true then synthSchema
          else (normalizeOpt rd2).data) := by
      by_cases h1 : (normalizeOpt rd).data.isNil = true <;>
        by_cases h2 : (normalizeOpt rd2).data.isNil = true <;>
        simp [h1, h2, hli, semNorm_synth] at hdat ⊢ <;> simp [hdat]
    have hI := ih _ hd1
    rw [items_eq]
    rcases hI2 : handleItems doc f
        (if (normalizeOpt rd2).data.isNil = true then synthSchema else (normalizeOpt rd2).data)
        (jquery doc ((normalizeOpt rd).listItem.getD "") ctx) (normalizeOpt rd).convert
      with ⟨resI, dI⟩
    rw [hI2] at hI
    simp at hI
    simp [← hI]
  case _ =>
    -- list branch, handleItems ok, then the rest of the schema
    intro f k rd rest ctx pd v0 v hguard hli items data1 outs d' items_eq v' pd' res rest'
      rest_eq ih_items ih_rest hctx s2 hsem
    have h2 : semNorm s2 = Schema.cons k (canonDef k rd) (semNorm rest) := by
      rw [← hsem]
      simp [semNorm]
    obtain ⟨rd2, rest2, rfl, hcd, hrest2⟩ := semNorm_cons_inv h2
    obtain ⟨hsel, hli2, hdat, hhow, hattr, htv, hcl2, heq2, hte2, hcv2⟩ := canonDef_equiv hcd
    rw [items_eq] at ih_items
    have hres := ih_rest hctx rest2 hrest2.symm
    simp only [pd', v', data1, items, v, v0] at items_eq ih_items hres
    simp only [v, v0] at hli
    rw [hli2] at hdat
    simp only [handleS]
    simp [hctx, hli, hli2, hsel, hattr, htv, hcl2, heq2, hte2, hcv2]
      at items_eq ih_items hres ⊢
    have hd1 : semNorm (if (normalizeOpt rd).data.isNil = true then synthSchema
          else (normalizeOpt rd).data) =
        semNorm (if (normalizeOpt rd2).data.isNil = true then synthSchema
          else (normalizeOpt rd2).data) := by
      by_cases h1 : (normalizeOpt rd).data.isNil = true <;>
        by_cases h2 : (normalizeOpt rd2).data.isNil = true <;>
        simp [h1, h2, hli, semNorm_synth] at hdat ⊢ <;> simp [hdat]
    have hI := ih_items _ hd1
    rw [items_eq]
    rcases hI2 : handleItems doc f
        (if (normalizeOpt rd2).data.isNil = true then synthSchema else (normalizeOpt rd2).data)
        (jquery doc ((normalizeOpt rd).listItem.getD "") ctx) (normalizeOpt rd).convert
      with ⟨resI, dI⟩
    rw [hI2] at hI
    simp at hI
    simpa [← hI] using hres
  case _ =>
    -- scalar branch, eq step throws
    intro f k rd rest ctx pd v0 v hguard element hli stepEq e hstep hctx s2 hsem
    have h2 : semNorm s2 = Schema.cons k (canonDef k rd) (semNorm rest) := by
      rw [← hsem]
      simp [semNorm]
    obtain ⟨rd2, rest2, rfl, hcd, hrest2⟩ := semNorm_cons_inv h2
    obtain ⟨hsel, hli2, hdat, hhow, hattr, htv, hcl2, heq2, hte2, hcv2⟩ := canonDef_equiv hcd
    simp only [stepEq, element, v, v0] at hstep
    simp only [v, v0] at hli
    simp only [handleS]
    simp [hctx, hli, hli2, hsel, hattr, htv, hcl2, heq2, hte2, hcv2] at hstep ⊢
    rcases hv : (normalizeOpt rd).eq with _ | n
    · rw [hv] at hstep
      simp at hstep
    · rw [hv] at hstep
      simp at hstep
      simp [hv, hstep]
  case _ =>
    -- scalar branch, texteq contents step throws
    intro f k rd rest ctx pd v0 v hguard element hli stepEq el1 hstepEq stepTe e hstepTe hctx
      s2 hsem
    have h2 : semNorm s2 = Schema.cons k (canonDef k rd) (semNorm rest) := by
      rw [← hsem]
      simp [semNorm]
    obtain ⟨rd2, rest2, rfl, hcd, hrest2⟩ := semNorm_cons_inv h2
    obtain ⟨hsel, hli2, hdat, hhow, hattr, htv, hcl2, heq2, hte2, hcv2⟩ := canonDef_equiv hcd
    simp only [stepTe, stepEq, element, v, v0] at hstepEq hstepTe
    simp only [v, v0] at hli
    simp only [handleS]
    simp [hctx, hli, hli2, hsel, hattr, htv, hcl2, heq2, hte2, hcv2] at hstepEq hstepTe ⊢
    simp only [hstepEq]
    rcases ht : (normalizeOpt rd).texteq with _ | n
    · rw [ht] at hstepTe
      simp at hstepTe
    · rw [ht] at hstepTe
      simp only [ht]
      rcases hc : elemContents doc el1 with e2 | children <;> rw [hc] at hstepTe
      simp at hstepTe
  case _ =>
    -- scalar branch, closest step throws
    intro f k rd rest ctx pd v0 v hguard element hli stepEq el1 hstepEq stepTe el2 v2 hstepTe
      stepCl e hstepCl hctx s2 hsem
    have h2 : semNorm s2 = Schema.cons k (canonDef k rd) (semNorm rest) := by
      rw [← hsem]
      simp [semNorm]
    obtain ⟨rd2, rest2, rfl, hcd, hrest2⟩ := semNorm_cons_inv h2
    obtain ⟨hsel, hli2, hdat, hhow, hattr, htv, hcl2, heq2, hte2, hcv2⟩ := canonDef_equiv hcd
    simp only [stepCl, stepTe, stepEq, element, v, v0] at hstepEq hstepTe hstepCl
    simp only [v, v0] at hli
    simp only [handleS]
    simp [hctx, hli, hli2, hsel, hattr, htv, hcl2, heq2, hte2, hcv2]
      at hstepEq hstepTe hstepCl ⊢
    simp only [hstepEq]
    rcases ht : (normalizeOpt rd).texteq with _ | n
    · rw [ht] at hstepTe
      simp at hstepTe
      simp only [ht]
      rw [← hstepTe.1, ← hstepTe.2] at hstepCl
      simp at hstepCl
      by_cases hcl : (normalizeOpt rd).closest = ""
      · simp [hcl] at hstepCl
      · simp [hcl] at hstepCl ⊢
        simp [hstepCl]
    · rw [ht] at hstepTe
      simp only [ht]
      rcases hc : elemContents doc el1 with e2 | children <;> rw [hc] at hstepTe
      simp at hstepTe
      rw [← hstepTe.1, ← hstepTe.2] at hstepCl
      simp at hstepCl
      by_cases hcl : (normalizeOpt rd).closest = ""
      · simp [hcl] at hstepCl
      · simp [hcl] at hstepCl ⊢
        simp [hstepCl]
  case _ =>
    -- nested branch, recursive call throws
    intro f k rd rest ctx pd v0 v hguard element hli stepEq el1 hstepEq stepTe el2 v2 hstepTe
      stepCl el3 hstepCl hdata e d' sub_eq ih hctx s2 hsem
    have h2 : semNorm s2 = Schema.cons k (canonDef k rd) (semNorm rest) := by
      rw [← hsem]
      simp [semNorm]
    obtain ⟨rd2, rest2, rfl, hcd, hrest2⟩ := semNorm_cons_inv h2
    obtain ⟨hsel, hli2, hdat, hhow, hattr, htv, hcl2, heq2, hte2, hcv2⟩ := canonDef_equiv hcd
    simp only [stepCl, stepTe, stepEq, element, v, v0] at hstepEq hstepTe hstepCl
    simp only [v, v0] at hli
    rw [hli2] at hdat
    have hlif : truthyS (normalizeOpt rd).listItem = false := by
      simpa using hli
    rw [hlif] at hdat
    simp at hdat
    have hnil2 : (normalizeOpt rd2).data.isNil = (normalizeOpt rd).data.isNil := by
      rw [← semNorm_isNil ((normalizeOpt rd2).data), hdat, semNorm_isNil]
    have h1 : el1.isDollar = false := by
      have hE := hstepEq
      rcases hv : (normalizeOpt rd).eq with _ | n
      · rw [hv] at hE
        simp at hE
        rw [← hE]
        split
        · simp [Elem.isDollar]
        · exact hctx
      · rw [hv] at hE
        simp at hE
        exact elemEq_ok_nd hE
    have h2e : el2.isDollar = false := by
      have hT := hstepTe
      rcases ht : (normalizeOpt rd).texteq with _ | n
      · rw [ht] at hT
        simp at hT
        rw [← hT.1]
        exact h1
      · rw [ht] at hT
        rcases hc : elemContents doc el1 with e2 | children
        · rw [hc] at hT
          simp at hT
        · rw [hc] at hT
          simp at hT
          rw [← hT.1]
          cases hf : findTextChild doc children n <;> simp [hf, Elem.isDollar]
    have hv2c : v2.closest = (normalizeOpt rd).closest := by
      have hT := hstepTe
      rcases ht : (normalizeOpt rd).texteq with _ | n
      · rw [ht] at hT
        simp at hT
        rw [← hT.2]
      · rw [ht] at hT
        rcases hc : elemContents doc el1 with e2 | children
        · rw [hc] at hT
          simp at hT
        · rw [hc] at hT
          simp at hT
          rw [← hT.2]
    have hv2d : v2.data = (normalizeOpt rd).data := by
      have hT := hstepTe
      rcases ht : (normalizeOpt rd).texteq with _ | n
      · rw [ht] at hT
        simp at hT
        rw [← hT.2]
      · rw [ht] at hT
        rcases hc : elemContents doc el1 with e2 | children
        · rw [hc] at hT
          simp at hT
        · rw [hc] at hT
          simp at hT
          rw [← hT.2]
    have h3 : el3.isDollar = false := by
      have hC := hstepCl
      rw [hv2c] at hC
      by_cases hcl : (normalizeOpt rd).closest = ""
      · simp [hcl] at hC
        rw [← hC]
        exact h2e
      · simp [hcl] at hC
        exact elemClosest_ok_nd hC
    rw [hv2d] at sub_eq
    have hdat2 : semNorm v2.data = semNorm (normalizeOpt rd2).data := by
      rw [hv2d]
      exact hdat.symm
    have hsub := ih h3 (normalizeOpt rd2).data hdat2
    rw [hv2d, sub_eq] at hsub
    simp at hdata
    rw [hv2d] at hdata
    simp only [handleS]
    simp [hctx, hli, hli2, hsel, hattr, htv, hcl2, heq2, hte2, hcv2]
      at hstepEq hstepTe hstepCl ⊢
    simp only [hstepEq]
    rcases ht : (normalizeOpt rd).texteq with _ | n
    · rw [ht] at hstepTe
      simp at hstepTe
      simp only [ht]
      rw [← hstepTe.1, ← hstepTe.2] at hstepCl
      simp at hstepCl
      by_cases hcl : (normalizeOpt rd).closest = ""
      · simp [hcl] at hstepCl
        rw [← hstepCl] at sub_eq hsub
        simp [hcl, hdata, hnil2, sub_eq]
        rcases hS2 : handleS doc f (normalizeOpt rd2).data el1 [] with ⟨resS, dS⟩
        rw [hS2] at hsub
        simp at hsub
        simp [← hsub]
      · simp [hcl] at hstepCl ⊢
        simp [hstepCl, hdata, hnil2, sub_eq]
        rcases hS2 : handleS doc f (normalizeOpt rd2).data el3 [] with ⟨resS, dS⟩
        rw [hS2] at hsub
        simp at hsub
        simp [← hsub]
    · rw [ht] at hstepTe
      simp only [ht]
      rcases hc : elemContents doc el1 with e2 | children <;> rw [hc] at hstepTe
      simp at hstepTe
      rw [← hstepTe.1, ← hstepTe.2] at hstepCl
      simp at hstepCl
      by_cases hcl : (normalizeOpt rd).closest = ""
      · simp [hcl] at hstepCl
        rw [← hstepCl] at sub_eq hsub
        simp [hcl, hdata, hnil2, sub_eq]
        rcases hS2 : handleS doc f (normalizeOpt rd2).data
            (match findTextChild doc children n with
             | some p => Elem.raw p
             | none => Elem.loadEmpty) [] with ⟨resS, dS⟩
        rw [hS2] at hsub
        simp at hsub
        simp [← hsub]
      · simp [hcl] at hstepCl ⊢
        simp [hstepCl, hdata, hnil2, sub_eq]
        rcases hS2 : handleS doc f (normalizeOpt rd2).data el3 [] with ⟨resS, dS⟩
        rw [hS2] at hsub
        simp at hsub
        simp [← hsub]
  case _ =>
    -- nested branch, recursive call succeeds, then the rest of the schema
    intro f k rd rest ctx pd v0 v hguard element hli stepEq el1 hstepEq stepTe el2 v2 hstepTe
      stepCl el3 hstepCl hdata sub d' sub_eq v3 pd' res rest' rest_eq ih_sub ih_rest hctx
      s2 hsem
    have h2 : semNorm s2 = Schema.cons k (canonDef k rd) (semNorm rest) := by
      rw [← hsem]
      simp [semNorm]
    obtain ⟨rd2, rest2, rfl, hcd, hrest2⟩ := semNorm_cons_inv h2
    obtain ⟨hsel, hli2, hdat, hhow, hattr, htv, hcl2, heq2, hte2, hcv2⟩ := canonDef_equiv hcd
    simp only [stepCl, stepTe, stepEq, element, v, v0] at hstepEq hstepTe hstepCl
    simp only [v, v0] at hli
    rw [hli2] at hdat
    have hlif : truthyS (normalizeOpt rd).listItem = false := by
      simpa using hli
    rw [hlif] at hdat
    simp at hdat
    have hnil2 : (normalizeOpt rd2).data.isNil = (normalizeOpt rd).data.isNil := by
      rw [← semNorm_isNil ((normalizeOpt rd2).data), hdat, semNorm_isNil]
    have h1 : el1.isDollar = false := by
      have hE := hstepEq
      rcases hv : (normalizeOpt rd).eq with _ | n
      · rw [hv] at hE
        simp at hE
        rw [← hE]
        split
        · simp [Elem.isDollar]
        · exact hctx
      · rw [hv] at hE
        simp at hE
        exact elemEq_ok_nd hE
    have h2e : el2.isDollar = false := by
      have hT := hstepTe
      rcases ht : (normalizeOpt rd).texteq with _ | n
      · rw [ht] at hT
        simp at hT
        rw [← hT.1]
        exact h1
      · rw [ht] at hT
        rcases hc : elemContents doc el1 with e2 | children
        · rw [hc] at hT
          simp at hT
        · rw [hc] at hT
          simp at hT
          rw [← hT.1]
          cases hf : findTextChild doc children n <;> simp [hf, Elem.isDollar]
    have hv2c : v2.closest = (normalizeOpt rd).closest := by
      have hT := hstepTe
      rcases ht : (normalizeOpt rd).texteq with _ | n
      · rw [ht] at hT
        simp at hT
        rw [← hT.2]
      · rw [ht] at hT
        rcases hc : elemContents doc el1 with e2 | children
        · rw [hc] at hT
          simp at hT
        · rw [hc] at hT
          simp at hT
          rw [← hT.2]
    have hv2d : v2.data = (normalizeOpt rd).data := by
      have hT := hstepTe
      rcases ht : (normalizeOpt rd).texteq with _ | n
      · rw [ht] at hT
        simp at hT
        rw [← hT.2]
      · rw [ht] at hT
        rcases hc : elemContents doc el1 with e2 | children
        · rw [hc] at hT
          simp at hT
        · rw [hc] at hT
          simp at hT
          rw [← hT.2]
    have hv2n : v2.name = some k := by
      have hT := hstepTe
      rcases ht : (normalizeOpt rd).texteq with _ | n
      · rw [ht] at hT
        simp at hT
        rw [← hT.2]
      · rw [ht] at hT
        rcases hc : elemContents doc el1 with e2 | children
        · rw [hc] at hT
          simp at hT
        · rw [hc] at hT
          simp at hT
          rw [← hT.2]
    have h3 : el3.isDollar = false := by
      have hC := hstepCl
      rw [hv2c] at hC
      by_cases hcl : (normalizeOpt rd).closest = ""
      · simp [hcl] at hC
        rw [← hC]
        exact h2e
      · simp [hcl] at hC
        exact elemClosest_ok_nd hC
    rw [hv2d] at sub_eq
    have hdat2 : semNorm v2.data = semNorm (normalizeOpt rd2).data := by
      rw [hv2d]
      exact hdat.symm
    have hsub := ih_sub h3 (normalizeOpt rd2).data hdat2
    rw [hv2d, sub_eq] at hsub
    simp at hdata
    rw [hv2d] at hdata
    have hres := ih_rest hctx rest2 hrest2.symm
    simp only [pd', v3] at hres
    rw [hv2n] at hres
    simp at hres
    simp only [handleS]
    simp [hctx, hli, hli2, hsel, hattr, htv, hcl2, heq2, hte2, hcv2]
      at hstepEq hstepTe hstepCl ⊢
    simp only [hstepEq]
    rcases ht : (normalizeOpt rd).texteq with _ | n
    · rw [ht] at hstepTe
      simp at hstepTe
      simp only [ht]
      rw [← hstepTe.1, ← hstepTe.2] at hstepCl
      simp at hstepCl
      by_cases hcl : (normalizeOpt rd).closest = ""
      · simp [hcl] at hstepCl
        rw [← hstepCl] at sub_eq hsub
        simp [hcl, hdata, hnil2, sub_eq]
        rcases hS2 : handleS doc f (normalizeOpt rd2).data el1 [] with ⟨resS, dS⟩
        rw [hS2] at hsub
        simp at hsub
        simpa [← hsub] using hres
      · simp [hcl] at hstepCl ⊢
        simp [hstepCl, hdata, hnil2, sub_eq]
        rcases hS2 : handleS doc f (normalizeOpt rd2).data el3 [] with ⟨resS, dS⟩
        rw [hS2] at hsub
        simp at hsub
        simpa [← hsub] using hres
    · rw [ht] at hstepTe
      simp only [ht]
      rcases hc : elemContents doc el1 with e2 | children <;> rw [hc] at hstepTe
      simp at hstepTe
      rw [← hstepTe.1, ← hstepTe.2] at hstepCl
      simp at hstepCl
      by_cases hcl : (normalizeOpt rd).closest = ""
      · simp [hcl] at hstepCl
        rw [← hstepCl] at sub_eq hsub
        simp [hcl, hdata, hnil2, sub_eq]
        rcases hS2 : handleS doc f (normalizeOpt rd2).data
            (match findTextChild doc children n with
             | some p => Elem.raw p
             | none => Elem.loadEmpty) [] with ⟨resS, dS⟩
        rw [hS2] at hsub
        simp at hsub
        simpa [← hsub] using hres
      · simp [hcl] at hstepCl ⊢
        simp [hstepCl, hdata, hnil2, sub_eq]
        rcases hS2 : handleS doc f (normalizeOpt rd2).data el3 [] with ⟨resS, dS⟩
        rw [hS2] at hsub
        simp at hsub
        simpa [← hsub] using hres
  case _ =>
    -- scalar branch, accessor throws
    intro f k rd rest ctx pd v0 v hguard element hli stepEq el1 hstepEq stepTe el2 v2 hstepTe
      stepCl el3 hstepCl hdata e how_eq hctx s2 hsem
    have h2 : semNorm s2 = Schema.cons k (canonDef k rd) (semNorm rest) := by
      rw [← hsem]
      simp [semNorm]
    obtain ⟨rd2, rest2, rfl, hcd, hrest2⟩ := semNorm_cons_inv h2
    obtain ⟨hsel, hli2, hdat, hhow, hattr, htv, hcl2, heq2, hte2, hcv2⟩ := canonDef_equiv hcd
    simp only [stepCl, stepTe, stepEq, element, v, v0] at hstepEq hstepTe hstepCl how_eq
    simp only [v, v0] at hli
    rw [hli2] at hdat
    have hlif : truthyS (normalizeOpt rd).listItem = false := by
      simpa using hli
    rw [hlif] at hdat
    simp at hdat
    have hnil2 : (normalizeOpt rd2).data.isNil = (normalizeOpt rd).data.isNil := by
      rw [← semNorm_isNil ((normalizeOpt rd2).data), hdat, semNorm_isNil]
    have hv2d : v2.data = (normalizeOpt rd).data := by
      have hT := hstepTe
      rcases ht : (normalizeOpt rd).texteq with _ | n
      · rw [ht] at hT
        simp at hT
        rw [← hT.2]
      · rw [ht] at hT
        rcases hc : elemContents doc el1 with e2 | children
        · rw [hc] at hT
          simp at hT
        · rw [hc] at hT
          simp at hT
          rw [← hT.2]
    simp at hdata
    rw [hv2d] at hdata
    have hhow2 : (normalizeOpt rd2).how = (normalizeOpt rd).how ∨
        (normalizeOpt rd).texteq.isSome = true := by
      rcases ht : (normalizeOpt rd).texteq with _ | n
      · left
        have hcH := hhow
        rw [canonHow, canonHow, hte2, hli2, ht, hlif] at hcH
        simpa using hcH
      · right
        rfl
    simp only [handleS]
    simp [hctx, hli, hli2, hsel, hattr, htv, hcl2, heq2, hte2, hcv2]
      at hstepEq hstepTe hstepCl how_eq ⊢
    simp only [hstepEq]
    rcases ht : (normalizeOpt rd).texteq with _ | n
    · rw [ht] at hstepTe
      simp at hstepTe
      simp only [ht]
      rw [← hstepTe.1, ← hstepTe.2] at hstepCl
      rw [← hstepTe.2] at how_eq
      simp at hstepCl how_eq
      have hhw : (normalizeOpt rd2).how = (normalizeOpt rd).how := by
        rcases hhow2 with h | h
        · exact h
        · rw [ht] at h
          simp at h
      by_cases hcl : (normalizeOpt rd).closest = ""
      · simp [hcl] at hstepCl
        rw [← hstepCl] at how_eq
        simp [hcl, hdata, hnil2, hhw, how_eq]
      · simp [hcl] at hstepCl ⊢
        simp [hstepCl, hdata, hnil2, hhw, how_eq]
    · rw [ht] at hstepTe
      simp only [ht]
      rcases hc : elemContents doc el1 with e2 | children <;> rw [hc] at hstepTe
      simp at hstepTe
      rw [← hstepTe.1, ← hstepTe.2] at hstepCl
      rw [← hstepTe.2] at how_eq
      simp at hstepCl how_eq
      by_cases hcl : (normalizeOpt rd).closest = ""
      · simp [hcl] at hstepCl
        rw [← hstepCl] at how_eq
        simp [hcl, hdata, hnil2, how_eq]
      · simp [hcl] at hstepCl ⊢
        simp [hstepCl, hdata, hnil2, how_eq]
  case _ =>
    -- scalar branch, value stored, then the rest of the schema
    intro f k rd rest ctx pd v0 v hguard element hli stepEq el1 hstepEq stepTe el2 v2 hstepTe
      stepCl el3 hstepCl hdata key0 how_eq key1 key2 key3 pd' res rest' rest_eq ih_rest hctx
      s2 hsem
    have h2 : semNorm s2 = Schema.cons k (canonDef k rd) (semNorm rest) := by
      rw [← hsem]
      simp [semNorm]
    obtain ⟨rd2, rest2, rfl, hcd, hrest2⟩ := semNorm_cons_inv h2
    obtain ⟨hsel, hli2, hdat, hhow, hattr, htv, hcl2, heq2, hte2, hcv2⟩ := canonDef_equiv hcd
    simp only [stepCl, stepTe, stepEq, element, v, v0] at hstepEq hstepTe hstepCl how_eq
    simp only [v, v0] at hli
    rw [hli2] at hdat
    have hlif : truthyS (normalizeOpt rd).listItem = false := by
      simpa using hli
    rw [hlif] at hdat
    simp at hdat
    have hnil2 : (normalizeOpt rd2).data.isNil = (normalizeOpt rd).data.isNil := by
      rw [← semNorm_isNil ((normalizeOpt rd2).data), hdat, semNorm_isNil]
    have hv2d : v2.data = (normalizeOpt rd).data := by
      have hT := hstepTe
      rcases ht : (normalizeOpt rd).texteq with _ | n
      · rw [ht] at hT
        simp at hT
        rw [← hT.2]
      · rw [ht] at hT
        rcases hc : elemContents doc el1 with e2 | children
        · rw [hc] at hT
          simp at hT
        · rw [hc] at hT
          simp at hT
          rw [← hT.2]
    simp at hdata
    rw [hv2d] at hdata
    have hhow2 : (normalizeOpt rd2).how = (normalizeOpt rd).how ∨
        (normalizeOpt rd).texteq.isSome = true := by
      rcases ht : (normalizeOpt rd).texteq with _ | n
      · left
        have hcH := hhow
        rw [canonHow, canonHow, hte2, hli2, ht, hlif] at hcH
        simpa using hcH
      · right
        rfl
    have hres := ih_rest hctx rest2 hrest2.symm
    simp only [pd', key3, key2, key1] at hres
    simp only [handleS]
    simp [hctx, hli, hli2, hsel, hattr, htv, hcl2, heq2, hte2, hcv2]
      at hstepEq hstepTe hstepCl how_eq hres ⊢
    simp only [hstepEq]
    rcases ht : (normalizeOpt rd).texteq with _ | n
    · rw [ht] at hstepTe
      simp at hstepTe
      simp only [ht]
      rw [← hstepTe.1, ← hstepTe.2] at hstepCl
      rw [← hstepTe.2] at how_eq hres
      simp at hstepCl how_eq hres
      have hhw : (normalizeOpt rd2).how = (normalizeOpt rd).how := by
        rcases hhow2 with h | h
        · exact h
        · rw [ht] at h
          simp at h
      by_cases hcl : (normalizeOpt rd).closest = ""
      · simp [hcl] at hstepCl
        rw [← hstepCl] at how_eq hres
        simp [hcl, hdata, hnil2, hhw, how_eq]
        simpa using hres
      · simp [hcl] at hstepCl ⊢
        simp [hstepCl, hdata, hnil2, hhw, how_eq]
        simpa using hres
    · rw [ht] at hstepTe
      simp only [ht]
      rcases hc : elemContents doc el1 with e2 | children <;> rw [hc] at hstepTe
      simp at hstepTe
      rw [← hstepTe.1, ← hstepTe.2] at hstepCl
      rw [← hstepTe.2] at how_eq hres
      simp at hstepCl how_eq hres
      by_cases hcl : (normalizeOpt rd).closest = ""
      · simp [hcl] at hstepCl
        rw [← hstepCl] at how_eq hres
        simp [hcl, hdata, hnil2, how_eq]
        simpa using hres
      · simp [hcl] at hstepCl ⊢
        simp [hstepCl, hdata, hnil2, how_eq]
        simpa using hres
  case _ =>
    -- items loop: no items left
    intro x d x1 d2 hd2
    simp [handleItems]
  case _ =>
    -- items loop: the item extraction throws
    intro f d it restIts conv e d' sub_eq ih d2 hd2
    have h := ih rfl d2 hd2
    rw [sub_eq] at h
    simp only [handleItems]
    simp [sub_eq]
    rcases hS2 : handleS doc f d2 (Elem.sel [it]) [] with ⟨resS, dS⟩
    rw [hS2] at h
    simp at h
    simp [← h]
  case _ =>
    -- items loop: item ok, recursion on the remaining items throws
    intro f d it restIts conv sub d' sub_eq e d2 rest_eq ih1 ih2 dd2 hd2
    have h1 := ih1 rfl dd2 hd2
    rw [sub_eq] at h1
    have hnorm2 : semNorm d' = semNorm (handleS doc f dd2 (Elem.sel [it]) []).2 := by
      have ha : semNorm (handleS doc f d (Elem.sel [it]) []).2 = semNorm d :=
        handleS_mutNorm doc f d (Elem.sel [it]) [] rfl
      have hb : semNorm (handleS doc f dd2 (Elem.sel [it]) []).2 = semNorm dd2 :=
        handleS_mutNorm doc f dd2 (Elem.sel [it]) [] rfl
      rw [hb, ← hd2, ← ha, sub_eq]
    simp only [handleItems]
    simp [sub_eq]
    rcases hS2 : handleS doc f dd2 (Elem.sel [it]) [] with ⟨resS, dS⟩
    rw [hS2] at h1 hnorm2
    simp at h1 hnorm2
    simp [← h1]
    have hrec := ih2 dS hnorm2
    rw [rest_eq] at hrec
    rcases hI2 : handleItems doc f dS restIts conv with ⟨resI, dI⟩
    rw [hI2] at hrec
    simp at hrec
    simp [← hrec, rest_eq]
  case _ =>
    -- items loop: everything succeeds
    intro f d it restIts conv sub d' sub_eq outs d2 rest_eq ih1 ih2 dd2 hd2
    have h1 := ih1 rfl dd2 hd2
    rw [sub_eq] at h1
    have hnorm2 : semNorm d' = semNorm (handleS doc f dd2 (Elem.sel [it]) []).2 := by
      have ha : semNorm (handleS doc f d (Elem.sel [it]) []).2 = semNorm d :=
        handleS_mutNorm doc f d (Elem.sel [it]) [] rfl
      have hb : semNorm (handleS doc f dd2 (Elem.sel [it]) []).2 = semNorm dd2 :=
        handleS_mutNorm doc f dd2 (Elem.sel [it]) [] rfl
      rw [hb, ← hd2, ← ha, sub_eq]
    simp only [handleItems]
    simp [sub_eq]
    rcases hS2 : handleS doc f dd2 (Elem.sel [it]) [] with ⟨resS, dS⟩
    rw [hS2] at h1 hnorm2
    simp at h1 hnorm2
    simp [← h1]
    have hrec := ih2 dS hnorm2
    rw [rest_eq] at hrec
    rcases hI2 : handleItems doc f dS restIts conv with ⟨resI, dI⟩
    rw [hI2] at hrec
    simp at hrec
    simp [← hrec, rest_eq]

/-! ## Completeness: a successful extraction stores every declared key -/

theorem anyKey_map (pd : PageData) (k kk : String) (x : JsVal) :
    ((pd.map (fun q => if q.1 == k then (k, x) else q)).any fun q => q.1 == kk) =
      pd.any (fun q => q.1 == kk) := by
  induction pd with
  | nil => rfl
  | cons q rest ihp =>
    simp only [List.map_cons, List.any_cons, ihp]
    by_cases hq : (q.1 == k) = true
    · have hqe : q.1 = k := eq_of_beq hq
      simp [hq, hqe]
    · simp [hq]

theorem hasKey_setField (pd : PageData) (k kk : String) (x : JsVal) :
    hasKey (setField pd k x) kk = (hasKey pd kk || kk == k) := by
  unfold setField hasKey
  by_cases h : pd.any (fun q => q.1 == k) = true
  · rw [if_pos h, anyKey_map]
    by_cases hk : kk = k
    · subst hk
      simp [h]
    · have h1 : (kk == k) = false := beq_eq_false_iff_ne.mpr hk
      simp [h1]
  · rw [if_neg h]
    simp only [List.any_append]
    by_cases hk : kk = k
    · subst hk
      simp
    · have h1 : (kk == k) = false := beq_eq_false_iff_ne.mpr hk
      have h2 : (k == kk) = false := beq_eq_false_iff_ne.mpr (Ne.symm hk)
      simp [h1, h2]

set_option maxHeartbeats 2000000 in
theorem complete_all (doc : DNode) :
    (∀ (f : Nat) (s : Schema) (ctx : Elem) (pd : PageData),
      ∀ out : PageData, (handleS doc f s ctx pd).1 = .ok out →
      ∀ kk : String, (hasKey pd kk || s.keys.contains kk) = true → hasKey out kk = true) ∧
    (∀ (f : Nat) (d : Schema) (its : List Path) (conv : Option Convert), True) := by
  refine handleS.mutual_induct doc
    (fun f s ctx pd => ∀ out : PageData, (handleS doc f s ctx pd).1 = .ok out →
      ∀ kk : String, (hasKey pd kk || s.keys.contains kk) = true → hasKey out kk = true)
    (fun f d its conv => True)
    ?_ ?_ ?_ ?_ ?_ ?_ ?_ ?_ ?_ ?_ ?_ ?_ ?_ ?_ ?_ ?_
  case _ =>
    intro s x x1 out hout
    simp [handleS] at hout
  case _ =>
    intro n x pd out hout kk hkk
    simp [handleS] at hout
    simp [Schema.keys] at hkk
    rw [← hout]
    exact hkk
  case _ =>
    intro f k rd rest ctx pd v0 v hguard out hout
    simp only [handleS] at hout
    simp only [v, v0] at hguard
    simp [hguard] at hout
  case _ =>
    intro f k rd rest ctx pd v0 v hguard hli items data1 e d' items_eq ih out hout
    simp only [data1, items, v, v0] at items_eq
    simp only [v, v0] at hguard hli
    simp only [handleS] at hout
    rw [if_neg hguard] at hout
    simp [hli] at items_eq hout
    rw [items_eq] at hout
    simp at hout
  case _ =>
    intro f k rd rest ctx pd v0 v hguard hli items data1 outs d' items_eq v' pd' res rest'
      rest_eq ih_items ih_rest out hout kk hkk
    simp only [pd', v', data1, items, v, v0] at items_eq rest_eq ih_rest
    simp only [v, v0] at hguard hli
    simp only [handleS] at hout
    rw [if_neg hguard] at hout
    simp [hli] at items_eq rest_eq hout
    simp at ih_rest
    rw [items_eq] at hout
    simp [rest_eq] at hout
    refine ih_rest out (by rw [rest_eq]; simpa using hout) kk ?_
    simp [Schema.keys] at hkk
    rw [hasKey_setField]
    rcases hkk with hk | hk | hk
    · simp [hk]
    · simp [hk]
    · simp [hk]
  case _ =>
    intro f k rd rest ctx pd v0 v hguard element hli stepEq e hstep out hout
    simp only [stepEq, element, v, v0] at hstep
    simp only [v, v0] at hguard hli
    simp only [handleS] at hout
    rw [if_neg hguard] at hout
    simp [hli] at hstep hout
    simp only [hstep] at hout
    simp at hout
  case _ =>
    intro f k rd rest ctx pd v0 v hguard element hli stepEq el1 hstepEq stepTe e hstepTe out hout
    simp only [stepTe, stepEq, element, v, v0] at hstepEq hstepTe
    simp only [v, v0] at hguard hli
    simp only [handleS] at hout
    rw [if_neg hguard] at hout
    simp [hli] at hstepEq hstepTe hout
    simp only [hstepEq] at hout
    simp only [hstepTe] at hout
    simp at hout
  case _ =>
    intro f k rd rest ctx pd v0 v hguard element hli stepEq el1 hstepEq stepTe el2 v2 hstepTe
      stepCl e hstepCl out hout
    simp only [stepCl, stepTe, stepEq, element, v, v0] at hstepEq hstepTe hstepCl
    simp only [v, v0] at hguard hli
    simp only [handleS] at hout
    rw [if_neg hguard] at hout
    simp [hli] at hstepEq hstepTe hstepCl hout
    simp only [hstepEq] at hout
    simp only [hstepTe] at hout
    simp only [hstepCl] at hout
    simp at hout
  case _ =>
    intro f k rd rest ctx pd v0 v hguard element hli stepEq el1 hstepEq stepTe el2 v2 hstepTe
      stepCl el3 hstepCl hdata e d' sub_eq ih out hout
    simp only [stepCl, stepTe, stepEq, element, v, v0] at hstepEq hstepTe hstepCl
    simp only [v, v0] at hguard hli
    simp only [handleS] at hout
    rw [if_neg hguard] at hout
    simp [hli] at hstepEq hstepTe hstepCl hout
    simp only [hstepEq] at hout
    simp only [hstepTe] at hout
    simp only [hstepCl] at hout
    simp at hdata
    simp [hdata] at hout
    rw [sub_eq] at hout
    simp at hout
  case _ =>
    intro f k rd rest ctx pd v0 v hguard element hli stepEq el1 hstepEq stepTe el2 v2 hstepTe
      stepCl el3 hstepCl hdata sub d' sub_eq v3 pd' res rest' rest_eq ih_sub ih_rest out
      hout kk hkk
    have hv2n : v2.name = some k := by
      have hT := hstepTe
      simp only [stepTe, stepEq, element, v, v0] at hT
      rcases ht : (normalizeOpt rd).texteq with _ | n
      · rw [ht] at hT
        simp at hT
        rw [← hT.2]
      · rw [ht] at hT
        rcases hc : elemContents doc el1 with e2 | children
        · rw [hc] at hT
          simp at hT
        · rw [hc] at hT
          simp at hT
          rw [← hT.2]
    simp only [pd', v3] at rest_eq ih_rest
    simp only [stepCl, stepTe, stepEq, element, v, v0] at hstepEq hstepTe hstepCl
    simp only [v, v0] at hguard hli
    simp only [handleS] at hout
    rw [if_neg hguard] at hout
    simp [hli] at hstepEq hstepTe hstepCl hout
    simp only [hstepEq] at hout
    simp only [hstepTe] at hout
    simp only [hstepCl] at hout
    simp at hdata
    simp [hdata] at hout
    rw [sub_eq] at hout
    rw [hv2n] at rest_eq ih_rest hout
    simp at rest_eq ih_rest
    simp [rest_eq] at hout
    refine ih_rest out (by rw [rest_eq]; simpa using hout) kk ?_
    simp [Schema.keys] at hkk
    rw [hasKey_setField]
    rcases hkk with hk | hk | hk
    · simp [hk]
    · simp [hk]
    · simp [hk]
  case _ =>
    intro f k rd rest ctx pd v0 v hguard element hli stepEq el1 hstepEq stepTe el2 v2 hstepTe
      stepCl el3 hstepCl hdata e how_eq out hout
    simp only [stepCl, stepTe, stepEq, element, v, v0] at hstepEq hstepTe hstepCl
    simp only [v, v0] at hguard hli
    simp only [handleS] at hout
    rw [if_neg hguard] at hout
    simp [hli] at hstepEq hstepTe hstepCl hout
    simp only [hstepEq] at hout
    simp only [hstepTe] at hout
    simp only [hstepCl] at hout
    simp at hdata
    simp [hdata] at hout
    simp only [how_eq] at hout
    simp at hout
  case _ =>
    intro f k rd rest ctx pd v0 v hguard element hli stepEq el1 hstepEq stepTe el2 v2 hstepTe
      stepCl el3 hstepCl hdata key0 how_eq key1 key2 key3 pd' res rest' rest_eq ih_rest out
      hout kk hkk
    have hv2n : v2.name = some k := by
      have hT := hstepTe
      simp only [stepTe, stepEq, element, v, v0] at hT
      rcases ht : (normalizeOpt rd).texteq with _ | n
      · rw [ht] at hT
        simp at hT
        rw [← hT.2]
      · rw [ht] at hT
        rcases hc : elemContents doc el1 with e2 | children
        · rw [hc] at hT
          simp at hT
        · rw [hc] at hT
          simp at hT
          rw [← hT.2]
    simp only [pd', key3, key2, key1] at rest_eq ih_rest
    simp only [stepCl, stepTe, stepEq, element, v, v0] at hstepEq hstepTe hstepCl how_eq
    simp only [v, v0] at hguard hli
    simp only [handleS] at hout
    rw [if_neg hguard] at hout
    simp [hli] at hstepEq hstepTe hstepCl hout
    simp only [hstepEq] at hout
    simp only [hstepTe] at hout
    simp only [hstepCl] at hout
    simp at hdata
    simp [hdata] at hout
    simp only [how_eq] at hout
    rw [hv2n] at rest_eq ih_rest hout
    simp at rest_eq ih_rest
    simp [rest_eq] at hout
    refine ih_rest out (by rw [rest_eq]; simpa using hout) kk ?_
    simp [Schema.keys] at hkk
    rw [hasKey_setField]
    rcases hkk with hk | hk | hk
    · simp [hk]
    · simp [hk]
    · simp [hk]
  case _ =>
    intro x d x1
    trivial
  case _ =>
    intro f d it restIts conv e d' sub_eq ih
    trivial
  case _ =>
    intro f d it restIts conv sub d' sub_eq e d2 rest_eq ih1 ih2
    trivial
  case _ =>
    intro f d it restIts conv sub d' sub_eq outs d2 rest_eq ih1 ih2
    trivial

/-! ## Claim C9 -/

/-- The list-of-scalars schema `{items: {listItem: "li"}}` used as the C9
witness input. -/
def c9s : Schema :=
  .cons "items" (.objDef none (some "li") none none none none none none none none none) .nil

/-- C9: for every schema and immutable document, running the extraction a
second time with the same (mutated in place) schema object produces the
identical result, and every key declared in the schema appears in every
successful result record. -/
theorem c9_idempotent_and_complete (doc : DNode) (opts : Schema) :
    (scrapeHTML doc ((scrapeHTML doc opts).2)).1 = (scrapeHTML doc opts).1 ∧
    (∀ out : PageData, (scrapeHTML doc opts).1 = .ok out →
      ∀ kk : String, opts.keys.contains kk = true → hasKey out kk = true) := by
  constructor
  · show (scrapeHTML doc ((handleS doc (needSchema opts) opts .undef []).2)).1 = _
    unfold scrapeHTML
    have hfuel : needSchema (handleS doc (needSchema opts) opts .undef []).2 =
        needSchema opts :=
      (handleS_pres doc (needSchema opts) opts .undef [] rfl).2
    rw [hfuel]
    have hsem : semNorm opts = semNorm (handleS doc (needSchema opts) opts .undef []).2 :=
      (handleS_mutNorm doc (needSchema opts) opts .undef [] rfl).symm
    exact ((simEq_all doc).1 (needSchema opts) opts .undef [] rfl _ hsem).symm
  · intro out hout kk hk
    refine (complete_all doc).1 (needSchema opts) opts .undef [] out hout kk ?_
    simpa [hasKey] using hk

theorem c9_witness :
    (scrapeHTML docA ((scrapeHTML docA c9s).2)).1 = (scrapeHTML docA c9s).1 ∧
    hasKey [("items", JsVal.arr [JsVal.str "A", JsVal.str "B"])] "items" = true :=
  ⟨(c9_idempotent_and_complete docA c9s).1,
   (c9_idempotent_and_complete docA c9s).2
     [("items", JsVal.arr [JsVal.str "A", JsVal.str "B"])]
     (by simp [scrapeHTML, needSchema, needDef, handleS, handleItems, normalizeOpt, truthyS, Elem.isDollar, jquery, queryCtx, allPaths, subPaths, subPathsList, selMatches, pathMatches, strictUnder, childrenOf, nodeAt, DNodeList.get?, DNodeList.length, dlist, textOfNode, textOfList, textOfPaths, attrOf, ancestorChain, closestOne, closestSet, childPaths, elemEq, elemContents, elemClosest, elemAttr, findTextChild, applyHow, truthy, howFalsy, jsTrim, isWS, List.lookup, setField, lookupField, synthSchema, emptyObjDef, slotAfter, FDesc.toRaw, Schema.isNil, hasKey, docA, c9s]) "items" rfl⟩

/-! ## Claim C1 -/

/-- The root field `{foo: {}}`: no selector, no listItem. -/
def c1s : Schema := .cons "foo" emptyObjDef .nil

/-- C1: the `NO_ELEMENT_SELECTED` configuration error is dead code — the root
call passes no context, so `context === $` never holds and no extraction ever
returns the configuration error; the root field `{foo: {}}` the claim says
must raise it instead crashes with a TypeError. -/
theorem c1_config_error_unreachable (doc : DNode) (opts : Schema) :
    isConfigExc (scrapeHTML doc opts).1 = false ∧
    (scrapeHTML docA c1s).1 =
      .error (.typeError "Cannot read properties of undefined, reading how") := by
  constructor
  · exact handleS_no_config doc (needSchema opts) opts .undef [] rfl
  · simp [scrapeHTML, needSchema, needDef, handleS, handleItems, normalizeOpt, truthyS, Elem.isDollar, jquery, queryCtx, allPaths, subPaths, subPathsList, selMatches, pathMatches, strictUnder, childrenOf, nodeAt, DNodeList.get?, DNodeList.length, dlist, textOfNode, textOfList, textOfPaths, attrOf, ancestorChain, closestOne, closestSet, childPaths, elemEq, elemContents, elemClosest, elemAttr, findTextChild, applyHow, truthy, howFalsy, jsTrim, isWS, List.lookup, setField, lookupField, synthSchema, emptyObjDef, slotAfter, FDesc.toRaw, Schema.isNil, hasKey, docA, c1s]

/-! ## Claim C2 -/

/-- `{items: {listItem: "li"}}` (empty sub-schema). -/
def c2s : Schema :=
  .cons "items" (.objDef none (some "li") none none none none none none none none none) .nil

/-- The synthetic `{___raw: {}}` schema after the engine expanded its slot in
place (data, how, trimValue, closest defaults written, name assigned). -/
def synthMut : Schema :=
  .cons "___raw"
    (.objDef none none (some .nil) (some (.builtin "text")) none (some true) (some "")
      none none none (some "___raw")) .nil

/-- One item through the synthetic `{___raw: {}}` sub-schema: the item's
trimmed text under `___raw`, and the slot left in expanded form. -/
theorem synth_item (doc : DNode) (f : Nat) (it : Path) :
    handleS doc (f + 1) synthSchema (.sel [it]) [] =
      (.ok [("___raw", .str (jsTrim (textOfPaths doc [it])))], synthMut) := by
  simp [scrapeHTML, needSchema, needDef, handleS, handleItems, normalizeOpt, truthyS, Elem.isDollar, jquery, queryCtx, allPaths, subPaths, subPathsList, selMatches, pathMatches, strictUnder, childrenOf, nodeAt, DNodeList.get?, DNodeList.length, dlist, textOfNode, textOfList, textOfPaths, attrOf, ancestorChain, closestOne, closestSet, childPaths, elemEq, elemContents, elemClosest, elemAttr, findTextChild, applyHow, truthy, howFalsy, jsTrim, isWS, List.lookup, setField, lookupField, synthSchema, emptyObjDef, slotAfter, FDesc.toRaw, Schema.isNil, hasKey, synthMut]

/-- Same pass over the already-expanded form (the loop threads the mutated
schema into every item after the first). -/
theorem synthMut_item (doc : DNode) (f : Nat) (it : Path) :
    handleS doc (f + 1) synthMut (.sel [it]) [] =
      (.ok [("___raw", .str (jsTrim (textOfPaths doc [it])))], synthMut) := by
  simp [scrapeHTML, needSchema, needDef, handleS, handleItems, normalizeOpt, truthyS, Elem.isDollar, jquery, queryCtx, allPaths, subPaths, subPathsList, selMatches, pathMatches, strictUnder, childrenOf, nodeAt, DNodeList.get?, DNodeList.length, dlist, textOfNode, textOfList, textOfPaths, attrOf, ancestorChain, closestOne, closestSet, childPaths, elemEq, elemContents, elemClosest, elemAttr, findTextChild, applyHow, truthy, howFalsy, jsTrim, isWS, List.lookup, setField, lookupField, synthSchema, emptyObjDef, slotAfter, FDesc.toRaw, Schema.isNil, hasKey, synthMut]

/-- The list loop over the expanded synthetic schema: the document-order map
of the unwrap-or-record rule, through the optional `convert`. -/
theorem synthMut_items (doc : DNode) (f : Nat) (its : List Path) (conv : Option Convert) :
    handleItems doc (f + 1) synthMut its conv =
      (.ok (its.map (fun it =>
        let raw := JsVal.str (jsTrim (textOfPaths doc [it]))
        let x := if truthy raw then raw else .obj [("___raw", raw)]
        match conv with | some c => c x .undef | none => x)), synthMut) := by
  induction its with
  | nil => simp [handleItems]
  | cons it rest ih =>
    simp only [handleItems]
    rw [synthMut_item doc f it]
    simp [ih, lookupField]

/-- The list loop as the engine starts it, on the raw `{___raw: {}}`. -/
theorem synth_items (doc : DNode) (f : Nat) (its : List Path) (conv : Option Convert) :
    (handleItems doc (f + 1) synthSchema its conv).1 =
      .ok (its.map (fun it =>
        let raw := JsVal.str (jsTrim (textOfPaths doc [it]))
        let x := if truthy raw then raw else .obj [("___raw", raw)]
        match conv with | some c => c x .undef | none => x)) := by
  cases its with
  | nil => simp [handleItems]
  | cons it rest =>
    simp only [handleItems]
    rw [synth_item doc f it]
    simp [synthMut_items doc f rest conv, lookupField]

/-- C2 (amended): a list field with an empty sub-schema goes through the
synthetic `{___raw: {}}` record; an item whose trimmed text is truthy is
unwrapped to the bare scalar, but a falsy (empty) text leaves the wrapped
record `{___raw: ""}` in the sequence; document order is preserved, and on
all-truthy inputs the claim's example holds. -/
theorem c2_scalar_list (doc : DNode) (f : Nat) (its : List Path) :
    (handleItems doc (f + 1) synthSchema its none).1 =
      .ok (its.map (fun it =>
        let raw := JsVal.str (jsTrim (textOfPaths doc [it]))
        if truthy raw then raw else .obj [("___raw", raw)])) ∧
    (scrapeHTML docA c2s).1 = .ok [("items", .arr [.str "A", .str "B"])] := by
  constructor
  · simpa using synth_items doc f its none
  · simp [scrapeHTML, needSchema, needDef, handleS, handleItems, normalizeOpt, truthyS, Elem.isDollar, jquery, queryCtx, allPaths, subPaths, subPathsList, selMatches, pathMatches, strictUnder, childrenOf, nodeAt, DNodeList.get?, DNodeList.length, dlist, textOfNode, textOfList, textOfPaths, attrOf, ancestorChain, closestOne, closestSet, childPaths, elemEq, elemContents, elemClosest, elemAttr, findTextChild, applyHow, truthy, howFalsy, jsTrim, isWS, List.lookup, setField, lookupField, synthSchema, emptyObjDef, slotAfter, FDesc.toRaw, Schema.isNil, hasKey, docA, c2s]

/-- C2 falls on falsy items: over `<ul><li>A</li><li></li></ul>` the engine
yields `["A", {___raw: ""}]`, not the bare scalars `["A", ""]`. -/
theorem c2_counterexample :
    (scrapeHTML docEmpty c2s).1 =
      .ok [("items", .arr [.str "A", .obj [("___raw", .str "")]])] ∧
    (scrapeHTML docEmpty c2s).1 ≠ .ok [("items", .arr [.str "A", .str ""])] := by
  have h : (scrapeHTML docEmpty c2s).1 =
      .ok [("items", .arr [.str "A", .obj [("___raw", .str "")]])] := by
    simp [scrapeHTML, needSchema, needDef, handleS, handleItems, normalizeOpt, truthyS, Elem.isDollar, jquery, queryCtx, allPaths, subPaths, subPathsList, selMatches, pathMatches, strictUnder, childrenOf, nodeAt, DNodeList.get?, DNodeList.length, dlist, textOfNode, textOfList, textOfPaths, attrOf, ancestorChain, closestOne, closestSet, childPaths, elemEq, elemContents, elemClosest, elemAttr, findTextChild, applyHow, truthy, howFalsy, jsTrim, isWS, List.lookup, setField, lookupField, synthSchema, emptyObjDef, slotAfter, FDesc.toRaw, Schema.isNil, hasKey, docEmpty, c2s]
  refine ⟨h, ?_⟩
  rw [h]
  simp

/-! ## Claim C3 -/

/-- `{items: {selector: "sec", listItem: "li"}}`. -/
def c3s : Schema :=
  .cons "items" (.objDef (some "sec") (some "li") none none none none none none none none none)
    .nil

/-- The normalized C3 descriptor (a `sec`-selector list field). -/
def c3v : FDesc :=
  { normalizeOpt (.objDef (some "sec") (some "li") none none none none none none none none none)
    with name := some "items" }

/-- C3 falls: with `{selector: "sec", listItem: "li"}` over a document whose
`sec` holds only the `A` item, the engine also extracts the `B` item outside
the `sec` scope — the spec-side scope query finds exactly one item node. -/
theorem c3_counterexample :
    (scrapeHTML docScoped c3s).1 = .ok [("items", .arr [.str "A", .str "B"])] ∧
    specListItems docScoped c3v .undef = [[0, 0]] ∧
    (scrapeHTML docScoped c3s).1 ≠ .ok [("items", .arr [.str "A"])] := by
  have h : (scrapeHTML docScoped c3s).1 = .ok [("items", .arr [.str "A", .str "B"])] := by
    simp [scrapeHTML, needSchema, needDef, handleS, handleItems, normalizeOpt, truthyS, Elem.isDollar, jquery, queryCtx, allPaths, subPaths, subPathsList, selMatches, pathMatches, strictUnder, childrenOf, nodeAt, DNodeList.get?, DNodeList.length, dlist, textOfNode, textOfList, textOfPaths, attrOf, ancestorChain, closestOne, closestSet, childPaths, elemEq, elemContents, elemClosest, elemAttr, findTextChild, applyHow, truthy, howFalsy, jsTrim, isWS, List.lookup, setField, lookupField, synthSchema, emptyObjDef, slotAfter, FDesc.toRaw, Schema.isNil, hasKey, docScoped, c3s]
  refine ⟨h, by decide, ?_⟩
  rw [h]
  simp

/-- C3 (amended): the engine queries `listItem` in the INHERITED context — the
field's `selector` plays no role in the item query — which coincides with the
spec's resolved-scope rule exactly when the field has no truthy selector. -/
theorem c3_items_inherited (doc : DNode) (v : FDesc) (ctx : Elem) :
    jquery doc (v.listItem.getD "") ctx = specListItems doc { v with selector := none } ctx ∧
    (truthyS v.selector = false →
      specListItems doc v ctx = jquery doc (v.listItem.getD "") ctx) := by
  constructor
  · simp [specListItems, specScope, truthyS]
  · intro h
    simp [specListItems, specScope, h]

theorem c3_witness :
    specListItems docA { normalizeOpt (.objDef none (some "li") none none none none none none
      none none none) with name := some "items" } .undef =
    jquery docA (({ normalizeOpt (.objDef none (some "li") none none none none none none
      none none none) with name := some "items" } : FDesc).listItem.getD "") .undef :=
  (c3_items_inherited docA _ .undef).2 rfl

/-! ## Claim C4 -/

/-- `{t: {selector: "li"}}` — a plain object descriptor. -/
def c4s : Schema :=
  .cons "t" (.objDef (some "li") none none none none none none none none none none) .nil

/-- The `trimValue` slot of the first field's raw definition: `none` until
`objDef(v, 'trimValue', true)` writes the default into the caller's object. -/
def headTrim : Schema → Option (Option Bool)
  | .nil => none
  | .cons _ (.strDef _) _ => some none
  | .cons _ (.objDef _ _ _ _ _ tv _ _ _ _ _) _ => some tv

/-- C4 falls: extraction writes the defaults into the caller's descriptor —
after one run the field that had no `trimValue` holds `trimValue: true`. -/
theorem c4_counterexample :
    headTrim c4s = some none ∧
    headTrim (scrapeHTML docA c4s).2 = some (some true) := by
  constructor
  · rfl
  · simp [scrapeHTML, needSchema, needDef, handleS, handleItems, normalizeOpt, truthyS, Elem.isDollar, jquery, queryCtx, allPaths, subPaths, subPathsList, selMatches, pathMatches, strictUnder, childrenOf, nodeAt, DNodeList.get?, DNodeList.length, dlist, textOfNode, textOfList, textOfPaths, attrOf, ancestorChain, closestOne, closestSet, childPaths, elemEq, elemContents, elemClosest, elemAttr, findTextChild, applyHow, truthy, howFalsy, jsTrim, isWS, List.lookup, setField, lookupField, synthSchema, emptyObjDef, slotAfter, FDesc.toRaw, Schema.isNil, hasKey, docA, c4s, headTrim]

/-- C4 (amended): `normalizeOpt` and the engine mutate the caller's object
descriptors in place, but the mutation only expands defaults: the slot
structure and the semantic normal form of the schema are preserved, so the
mutated schema is equivalent to the input for every later extraction. -/
theorem c4_mutation_preserves (doc : DNode) (opts : Schema) :
    slotSig (scrapeHTML doc opts).2 = slotSig opts ∧
    semNorm (scrapeHTML doc opts).2 = semNorm opts :=
  ⟨(handleS_pres doc (needSchema opts) opts .undef [] rfl).1,
   handleS_mutNorm doc (needSchema opts) opts .undef [] rfl⟩

/-! ## Claim C5 -/

/-- `{x: {selector: "p", texteq: 5, closest: "div"}}` — a missing `texteq`
text child followed by `closest`. -/
def c5s : Schema :=
  .cons "x" (.objDef (some "p") none none none none none (some "div") none (some 5) none none)
    .nil

/-- `{a: {selector: "zzz"}}` — no selector match. -/
def c5a : Schema :=
  .cons "a" (.objDef (some "zzz") none none none none none none none none none none) .nil

/-- `{a: {selector: "li", eq: 7}}` — out-of-range index. -/
def c5b : Schema :=
  .cons "a" (.objDef (some "li") none none none none none none (some 7) none none none) .nil

/-- `{a: {selector: "p", texteq: 9}}` — missing text child, no closest. -/
def c5c : Schema :=
  .cons "a" (.objDef (some "p") none none none none none none none (some 9) none none) .nil

/-- `{a: {selector: "img", attr: "alt"}}` — missing attribute. -/
def c5d : Schema :=
  .cons "a" (.objDef (some "img") none none none (some "alt") none none none none none none)
    .nil

/-- C5 falls: a `closest` after a missed `texteq` throws a TypeError — a
"nothing matched" situation that does not degrade, so extraction does not
always complete. -/
theorem c5_counterexample :
    (scrapeHTML docText c5s).1 = .error (.typeError "element.closest is not a function") := by
  simp [scrapeHTML, needSchema, needDef, handleS, handleItems, normalizeOpt, truthyS, Elem.isDollar, jquery, queryCtx, allPaths, subPaths, subPathsList, selMatches, pathMatches, strictUnder, childrenOf, nodeAt, DNodeList.get?, DNodeList.length, dlist, textOfNode, textOfList, textOfPaths, attrOf, ancestorChain, closestOne, closestSet, childPaths, elemEq, elemContents, elemClosest, elemAttr, findTextChild, applyHow, truthy, howFalsy, jsTrim, isWS, List.lookup, setField, lookupField, synthSchema, emptyObjDef, slotAfter, FDesc.toRaw, Schema.isNil, hasKey, docText, c5s]

/-- C5 (amended): no extraction returns the configuration error (the guard is
dead), and the four listed no-match situations do degrade to empty values; but
TypeErrors remain possible (`closest` after `texteq`, accessors on an
unscoped root), so completion is not guaranteed. -/
theorem c5_graceful_cases (doc : DNode) (opts : Schema) :
    isConfigExc (scrapeHTML doc opts).1 = false ∧
    (scrapeHTML docA c5a).1 = .ok [("a", .str "")] ∧
    (scrapeHTML docA c5b).1 = .ok [("a", .str "")] ∧
    (scrapeHTML docText c5c).1 = .ok [("a", .str "")] ∧
    (scrapeHTML docImg c5d).1 = .ok [("a", .str "")] := by
  refine ⟨handleS_no_config doc (needSchema opts) opts .undef [] rfl, ?_, ?_, ?_, ?_⟩
  · simp [scrapeHTML, needSchema, needDef, handleS, handleItems, normalizeOpt, truthyS, Elem.isDollar, jquery, queryCtx, allPaths, subPaths, subPathsList, selMatches, pathMatches, strictUnder, childrenOf, nodeAt, DNodeList.get?, DNodeList.length, dlist, textOfNode, textOfList, textOfPaths, attrOf, ancestorChain, closestOne, closestSet, childPaths, elemEq, elemContents, elemClosest, elemAttr, findTextChild, applyHow, truthy, howFalsy, jsTrim, isWS, List.lookup, setField, lookupField, synthSchema, emptyObjDef, slotAfter, FDesc.toRaw, Schema.isNil, hasKey, docA, c5a]
  · simp [scrapeHTML, needSchema, needDef, handleS, handleItems, normalizeOpt, truthyS, Elem.isDollar, jquery, queryCtx, allPaths, subPaths, subPathsList, selMatches, pathMatches, strictUnder, childrenOf, nodeAt, DNodeList.get?, DNodeList.length, dlist, textOfNode, textOfList, textOfPaths, attrOf, ancestorChain, closestOne, closestSet, childPaths, elemEq, elemContents, elemClosest, elemAttr, findTextChild, applyHow, truthy, howFalsy, jsTrim, isWS, List.lookup, setField, lookupField, synthSchema, emptyObjDef, slotAfter, FDesc.toRaw, Schema.isNil, hasKey, docA, c5b]
  · simp [scrapeHTML, needSchema, needDef, handleS, handleItems, normalizeOpt, truthyS, Elem.isDollar, jquery, queryCtx, allPaths, subPaths, subPathsList, selMatches, pathMatches, strictUnder, childrenOf, nodeAt, DNodeList.get?, DNodeList.length, dlist, textOfNode, textOfList, textOfPaths, attrOf, ancestorChain, closestOne, closestSet, childPaths, elemEq, elemContents, elemClosest, elemAttr, findTextChild, applyHow, truthy, howFalsy, jsTrim, isWS, List.lookup, setField, lookupField, synthSchema, emptyObjDef, slotAfter, FDesc.toRaw, Schema.isNil, hasKey, docText, c5c]
  · simp [scrapeHTML, needSchema, needDef, handleS, handleItems, normalizeOpt, truthyS, Elem.isDollar, jquery, queryCtx, allPaths, subPaths, subPathsList, selMatches, pathMatches, strictUnder, childrenOf, nodeAt, DNodeList.get?, DNodeList.length, dlist, textOfNode, textOfList, textOfPaths, attrOf, ancestorChain, closestOne, closestSet, childPaths, elemEq, elemContents, elemClosest, elemAttr, findTextChild, applyHow, truthy, howFalsy, jsTrim, isWS, List.lookup, setField, lookupField, synthSchema, emptyObjDef, slotAfter, FDesc.toRaw, Schema.isNil, hasKey, docImg, c5d]

/-! ## Claim C6 -/

/-- The scalar branch's narrowing sequence (`element.eq`, the `texteq` scan,
`element.closest`, lines 177–204) as one function on the element: the final
element, or the TypeError one of the steps throws; the flag records whether
`texteq` installed the `elm => elm.data` reader over `value.how`. -/
def engineNarrow (doc : DNode) (v : FDesc) (el : Elem) : Except JsErr (Elem × Bool) :=
  match (match v.eq with | some n => elemEq el n | none => .ok el : Except JsErr Elem) with
  | .error e => .error e
  | .ok el1 =>
    match (match v.texteq with
           | some n =>
             match elemContents doc el1 with
             | .error e => .error e
             | .ok children =>
               .ok (match findTextChild doc children n with
                    | some p => Elem.raw p
                    | none => Elem.loadEmpty, true)
           | none => .ok (el1, false) : Except JsErr (Elem × Bool)) with
    | .error e => .error e
    | .ok (el2, fl) =>
      match (if v.closest != "" then elemClosest doc el2 v.closest else .ok el2) with
      | .error e => .error e
      | .ok el3 => .ok (el3, fl)

/-- The C6 descriptor `{selector: "p", texteq: 0, closest: "div"}`. -/
def c6s : Schema :=
  .cons "x" (.objDef (some "p") none none none none none (some "div") none (some 0) none none)
    .nil

/-- The normalized C6 descriptor. -/
def c6v : FDesc :=
  { normalizeOpt (.objDef (some "p") none none none none none (some "div") none (some 0)
      none none) with name := some "x" }

/-- A `texteq`-free descriptor with a `closest`, for the C6 witness. -/
def c6wv : FDesc :=
  normalizeOpt (.objDef (some "p") none none none none none (some "div") none none none none)

/-- C6 falls on the last step: `closest` after `texteq` throws (the narrowed
value is a raw text node, which has no `.closest`), where the spec's pipeline
replaces the element with the matching ancestor (and flags the override). -/
theorem c6_counterexample :
    (scrapeHTML docText c6s).1 = .error (.typeError "element.closest is not a function") ∧
    specNarrow docText c6v (.sel (jquery docText "p" .undef)) = (.sel [[0]], true) := by
  constructor
  · simp [scrapeHTML, needSchema, needDef, handleS, handleItems, normalizeOpt, truthyS, Elem.isDollar, jquery, queryCtx, allPaths, subPaths, subPathsList, selMatches, pathMatches, strictUnder, childrenOf, nodeAt, DNodeList.get?, DNodeList.length, dlist, textOfNode, textOfList, textOfPaths, attrOf, ancestorChain, closestOne, closestSet, childPaths, elemEq, elemContents, elemClosest, elemAttr, findTextChild, applyHow, truthy, howFalsy, jsTrim, isWS, List.lookup, setField, lookupField, synthSchema, emptyObjDef, slotAfter, FDesc.toRaw, Schema.isNil, hasKey, docText, c6s]
  · decide

/-- C6 (amended): the narrowing order is fixed eq → texteq → closest and each
step matches the spec's reading — `eq` keeps the nth match, `texteq` moves to
the nth direct text child (detached empty document on a miss) and overrides
the accessor, `closest` maps the selection to matching ancestors — whenever
`texteq` and `closest` are not combined; their combination throws. -/
theorem c6_narrow_order (doc : DNode) (v : FDesc) (ps : List Path) :
    (v.texteq = none → engineNarrow doc v (.sel ps) = .ok (specNarrow doc v (.sel ps))) ∧
    (v.closest = "" → engineNarrow doc v (.sel ps) = .ok (specNarrow doc v (.sel ps))) := by
  constructor
  · intro hte
    rcases hv : v.eq with _ | n <;>
      by_cases hcl : v.closest = "" <;>
        simp [engineNarrow, specNarrow, hte, hv, hcl, elemEq, elemClosest, contentsOf]
  · intro hcl
    rcases hv : v.eq with _ | n <;>
      rcases hte : v.texteq with _ | m <;>
        simp [engineNarrow, specNarrow, hte, hv, hcl, elemEq, elemClosest, elemContents,
          contentsOf] <;>
        (try (split <;> simp))

theorem c6_witness :
    engineNarrow docText c6wv (.sel [[0, 0]]) = .ok (specNarrow docText c6wv (.sel [[0, 0]])) :=
  (c6_narrow_order docText c6wv [[0, 0]]).1 rfl

/-! ## Claim C7 -/

/-- `{src: {selector: "img", attr: ""}}` — the empty-string attribute. -/
def c7s : Schema :=
  .cons "src" (.objDef (some "img") none none none (some "") none none none none none none)
    .nil

/-- `{src: {selector: "img", attr: "src"}}`. -/
def c7t : Schema :=
  .cons "src" (.objDef (some "img") none none none (some "src") none none none none none none)
    .nil

/-- `{src: {selector: "img", attr: "missing"}}` — an absent attribute. -/
def c7u : Schema :=
  .cons "src"
    (.objDef (some "img") none none none (some "missing") none none none none none none) .nil

/-- C7 falls on the empty string: `if (v.attr)` is a truthiness test, so
`attr: ""` does NOT replace `how` — the default text accessor runs and the
engine returns the element's text, not the (absent) empty-named attribute. -/
theorem c7_counterexample :
    (scrapeHTML docImg c7s).1 = .ok [("src", .str "T")] ∧
    (scrapeHTML docImg c7s).1 ≠ .ok [("src", .str "")] := by
  have h : (scrapeHTML docImg c7s).1 = .ok [("src", .str "T")] := by
    simp [scrapeHTML, needSchema, needDef, handleS, handleItems, normalizeOpt, truthyS, Elem.isDollar, jquery, queryCtx, allPaths, subPaths, subPathsList, selMatches, pathMatches, strictUnder, childrenOf, nodeAt, DNodeList.get?, DNodeList.length, dlist, textOfNode, textOfList, textOfPaths, attrOf, ancestorChain, closestOne, closestSet, childPaths, elemEq, elemContents, elemClosest, elemAttr, findTextChild, applyHow, truthy, howFalsy, jsTrim, isWS, List.lookup, setField, lookupField, synthSchema, emptyObjDef, slotAfter, FDesc.toRaw, Schema.isNil, hasKey, docImg, c7s]
  refine ⟨h, ?_⟩
  rw [h]
  simp

/-- C7 (amended): a TRUTHY (non-empty) `attr` replaces `how` with the
attribute reader regardless of any supplied `how`; the empty-string `attr` is
ignored by the truthiness guard; extraction stores the attribute's value, or
the empty string when the attribute is absent. -/
theorem c7_attr_truthy (doc : DNode) (opts : Schema) :
    (∀ (sel li : Option String) (dat : Option Schema) (how : Option How) (tv : Option Bool)
       (cl : Option String) (eqv te : Option Nat) (cv : Option Convert) (nm : Option String)
       (a : String), a ≠ "" →
      (normalizeOpt (.objDef sel li dat how (some a) tv cl eqv te cv nm)).how =
        .attrReader a) ∧
    (∀ (sel li : Option String) (dat : Option Schema) (how : How) (tv : Option Bool)
       (cl : Option String) (eqv te : Option Nat) (cv : Option Convert) (nm : Option String),
      (normalizeOpt (.objDef sel li dat (some how) (some "") tv cl eqv te cv nm)).how =
        (if howFalsy how then .builtin "text" else how)) ∧
    (scrapeHTML docImg c7t).1 = .ok [("src", .str "pic.png")] ∧
    (scrapeHTML docImg c7u).1 = .ok [("src", .str "")] := by
  refine ⟨?_, ?_, ?_, ?_⟩
  · intro sel li dat how tv cl eqv te cv nm a ha
    have hab : (a != "") = true := bne_iff_ne.mpr ha
    simp [normalizeOpt, hab]
  · intro sel li dat how tv cl eqv te cv nm
    simp [normalizeOpt]
  · simp [scrapeHTML, needSchema, needDef, handleS, handleItems, normalizeOpt, truthyS, Elem.isDollar, jquery, queryCtx, allPaths, subPaths, subPathsList, selMatches, pathMatches, strictUnder, childrenOf, nodeAt, DNodeList.get?, DNodeList.length, dlist, textOfNode, textOfList, textOfPaths, attrOf, ancestorChain, closestOne, closestSet, childPaths, elemEq, elemContents, elemClosest, elemAttr, findTextChild, applyHow, truthy, howFalsy, jsTrim, isWS, List.lookup, setField, lookupField, synthSchema, emptyObjDef, slotAfter, FDesc.toRaw, Schema.isNil, hasKey, docImg, c7t]
  · simp [scrapeHTML, needSchema, needDef, handleS, handleItems, normalizeOpt, truthyS, Elem.isDollar, jquery, queryCtx, allPaths, subPaths, subPathsList, selMatches, pathMatches, strictUnder, childrenOf, nodeAt, DNodeList.get?, DNodeList.length, dlist, textOfNode, textOfList, textOfPaths, attrOf, ancestorChain, closestOne, closestSet, childPaths, elemEq, elemContents, elemClosest, elemAttr, findTextChild, applyHow, truthy, howFalsy, jsTrim, isWS, List.lookup, setField, lookupField, synthSchema, emptyObjDef, slotAfter, FDesc.toRaw, Schema.isNil, hasKey, docImg, c7u]

theorem c7_witness :
    (normalizeOpt (.objDef (some "img") none none none (some "src") none none none none
      none none)).how = .attrReader "src" :=
  (c7_attr_truthy docA c7t).1 (some "img") none none none none none none none none none
    "src" (by decide)

/-! ## Claim C8 -/

/-- A convert probe that wraps its input, keeping it observable. -/
def c8c : Convert := fun v _ => .arr [v]

/-- C8: `convert` on a scalar field receives the post-trim value and the
resolved node and its return value is what gets stored; on a list field it is
applied once per item to the unwrap-or-record item result before appending;
on a nested-object field it is never applied (the result equals the run
without it). -/
theorem c8_convert (doc : DNode) (ctx : Elem) (f : Nat) (k s : String) (c : Convert)
    (pd : PageData) (its : List Path) (d : Schema)
    (hctx : ctx.isDollar = false) (hs : s ≠ "") (hd : d.isNil = false) :
    (handleS doc (f + 1)
        (.cons k (.objDef (some s) none none none none none none none none (some c) none)
          .nil) ctx pd).1 =
      .ok (setField pd k (c (.str (jsTrim (textOfPaths doc (jquery doc s ctx))))
        (.sel (jquery doc s ctx)))) ∧
    (handleItems doc (f + 1) synthSchema its (some c)).1 =
      .ok (its.map (fun it =>
        let raw := JsVal.str (jsTrim (textOfPaths doc [it]))
        c (if truthy raw then raw else .obj [("___raw", raw)]) .undef)) ∧
    (handleS doc (f + 1)
        (.cons k (.objDef (some s) none (some d) none none none none none none (some c) none)
          .nil) ctx pd).1 =
      (handleS doc (f + 1)
        (.cons k (.objDef (some s) none (some d) none none none none none none none none)
          .nil) ctx pd).1 := by
  have hsb : (s != "") = true := bne_iff_ne.mpr hs
  refine ⟨?_, ?_, ?_⟩
  · simp only [handleS]
    simp [hctx, truthyS, normalizeOpt, hsb, applyHow, Schema.isNil, jsTrim, setField]
  · simpa using synth_items doc f its (some c)
  · simp only [handleS]
    simp [hctx, truthyS, normalizeOpt, hsb, hd]
    rcases hS : handleS doc f d (.sel (jquery doc s ctx)) [] with ⟨res, d2⟩
    cases res <;> simp

theorem c8_witness :
    (handleS docA 1
        (.cons "t" (.objDef (some "li") none none none none none none none none (some c8c)
          none) .nil) .undef []).1 =
      .ok (setField [] "t" (c8c (.str (jsTrim (textOfPaths docA (jquery docA "li" .undef))))
        (.sel (jquery docA "li" .undef)))) :=
  (c8_convert docA .undef 0 "t" "li" c8c [] [] (.cons "x" (.strDef "li") .nil) rfl
    (by decide) rfl).1

/-! ## Claim C10 -/

/-- The C10 sub-schema `{___raw: {}, t: {}}`. -/
def c10d : Schema := .cons "___raw" emptyObjDef (.cons "t" emptyObjDef .nil)

/-- `{items: {listItem: "li", data: {___raw: {}, t: {}}}}`. -/
def c10s : Schema :=
  .cons "items" (.objDef none (some "li") (some c10d) none none none none none none none none)
    .nil

/-- The C10 sub-schema once the engine expanded both slots. -/
def c10m : Schema :=
  .cons "___raw"
    (.objDef none none (some .nil) (some (.builtin "text")) none (some true) (some "")
      none none none (some "___raw"))
    (.cons "t"
      (.objDef none none (some .nil) (some (.builtin "text")) none (some true) (some "")
        none none none (some "t")) .nil)

/-- C10: in the list loop, an item whose record has a truthy `___raw` field is
replaced by that field's value alone — every other sub-field of the item's
record is discarded — before the optional `convert` and the append. -/
theorem c10_raw_collapse (doc : DNode) (f : Nat) (d : Schema) (it : Path)
    (restIts : List Path) (conv : Option Convert) (sub : PageData) (d2 : Schema)
    (w : JsVal) (outs : List JsVal) (d3 : Schema)
    (hsub : handleS doc f d (.sel [it]) [] = (.ok sub, d2))
    (hw : lookupField sub "___raw" = some w) (htr : truthy w = true)
    (hrest : handleItems doc f d2 restIts conv = (.ok outs, d3)) :
    (handleItems doc f d (it :: restIts) conv).1 =
      .ok ((match conv with | some c => c w .undef | none => w) :: outs) := by
  simp only [handleItems]
  rw [hsub]
  simp [hw, htr, hrest]
  cases conv <;> rfl

theorem c10_witness :
    (handleItems docEmpty 2 c10d ([0, 0] :: []) none).1 = .ok [JsVal.str "A"] :=
  c10_raw_collapse docEmpty 2 c10d [0, 0] [] none
    [("___raw", .str "A"), ("t", .str "A")] c10m (.str "A") [] c10m
    (by simp [scrapeHTML, needSchema, needDef, handleS, handleItems, normalizeOpt, truthyS, Elem.isDollar, jquery, queryCtx, allPaths, subPaths, subPathsList, selMatches, pathMatches, strictUnder, childrenOf, nodeAt, DNodeList.get?, DNodeList.length, dlist, textOfNode, textOfList, textOfPaths, attrOf, ancestorChain, closestOne, closestSet, childPaths, elemEq, elemContents, elemClosest, elemAttr, findTextChild, applyHow, truthy, howFalsy, jsTrim, isWS, List.lookup, setField, lookupField, synthSchema, emptyObjDef, slotAfter, FDesc.toRaw, Schema.isNil, hasKey, docEmpty, c10d, c10m]) rfl (by decide) (by simp [handleItems])

end ScrapeIt
